import Mathlib

/-!
Verification of the CMake-subset interpreter (lexer rule table, AST
evaluator, variable bindings, and walking dispatcher) of the llvmbzlgen
repository, via a shallow embedding of the Go sources into Lean.

Conventions used throughout:
* Go strings are Lean `String`s, except inside the lexer where the
  scanned input and token values are `List Char` (Go `[]byte`).
* A Go `map[string]string` frame is embedded as `String → Option String`;
  a present key with empty-string value is distinct from an absent key,
  exactly as in Go.
* Go panics (out-of-range index, nil dereference, explicit panic) are
  embedded as `Option`/`Except` failures.
* Source positions carried by tokens and commands are omitted: no claim
  mentions them and they influence no control flow.
-/

namespace Bzlgen

/-! ## Variable bindings (cmakelib/bindings/bindings.go, slice variant)

The `Mapping` struct holds `vs []map[string]string`; the end of the Go
slice is the top of the scope stack.  We embed the slice as a list with
the HEAD as the top frame (Go index `len(vs)-1`), so `Push` conses and
the root frame is the last element. -/

/-- One scope frame: a Go `map[string]string`. -/
def Frame : Type := String → Option String

/-- The empty frame (`make(map[string]string)`). -/
def Frame.empty : Frame := fun _ => none

/-- Go map assignment `f[key] = value`. -/
def Frame.store (f : Frame) (key value : String) : Frame :=
  fun k => if k = key then some value else f k

/-- Mapping is a stack of frames; head = top of stack (Go `vs[len(vs)-1]`). -/
def Mapping : Type := List Frame

/-- New returns a new mapping holding a single empty root frame
(`New` calls `Push` once on an empty stack). -/
def Mapping.new : Mapping := [Frame.empty]

/-- Push appends a fresh scope (`m.vs = append(m.vs, make(map[string]string))`). -/
def Mapping.push (m : Mapping) : Mapping := Frame.empty :: m

/-- Pop removes the most recently pushed scope (`m.vs = m.vs[0:len(m.vs)-1]`). -/
def Mapping.pop (m : Mapping) : Mapping := m.tail

/-- Set writes into the current top frame (`m.vs[len(m.vs)-1][key] = value`).
On an empty stack the Go code would panic with an index error; that state
is unreachable from `New`, which always leaves the root frame in place,
and no claim concerns it, so the empty case returns the empty stack. -/
def Mapping.set (m : Mapping) (key value : String) : Mapping :=
  match m with
  | [] => []
  | t :: rest => t.store key value :: rest

/-- SetParent writes into the frame directly below the top
(`m.vs[len(m.vs)-2][key] = value`).  When fewer than two frames exist the
Go index `len(m.vs)-2` is out of range and the program panics; the panic
is embedded as `none`. -/
def Mapping.setParent (m : Mapping) (key value : String) : Option Mapping :=
  match m with
  | t :: p :: rest => some (t :: p.store key value :: rest)
  | _ => none

/-- Get searches frames from the top of the stack downward and returns the
first hit, or the empty string when no frame contains the key. -/
def Mapping.get (m : Mapping) (key : String) : String :=
  match m with
  | [] => ""
  | t :: rest =>
    match t key with
    | some v => v
    | none => Mapping.get rest key

/-- GetCache is not implemented in the source and always returns "". -/
def Mapping.getCache (_ : Mapping) (_ : String) : String := ""

/-- GetEnv is not implemented in the source and always returns "". -/
def Mapping.getEnv (_ : Mapping) (_ : String) : String := ""

/-- One step of the Values() fold: fold the bindings of frame `f` over the
accumulated view, deleting keys bound to the empty string
(`if val == "" { delete(vals, key) } else { vals[key] = val }`).
Distinct keys are independent, so the per-key form below is exactly the
Go loop over the frame. -/
def Frame.applyTo (vals : String → Option String) (f : Frame) : String → Option String :=
  fun k =>
    match f k with
    | some v => if v = "" then none else some v
    | none => vals k

/-- Values folds all frames from the root (Go index 0) up to the top,
applying tombstone deletes frame by frame; our head-is-top list is
reversed to recover the Go iteration order. -/
def Mapping.values (m : Mapping) : String → Option String :=
  m.reverse.foldl Frame.applyTo (fun _ => none)

/-- Topmost frame entry for a key: the raw binding (possibly the empty
string) in the most recently pushed frame that contains the key.  Used to
characterise `values`. -/
def Mapping.topEntry (m : Mapping) (key : String) : Option String :=
  match m with
  | [] => none
  | t :: rest =>
    match t key with
    | some v => some v
    | none => Mapping.topEntry rest key

/-! ## Argument AST (cmakelib/ast/ast.go, cmakelib/ast/domain.go)

The participle grammar structs become a family of inductives.  The Go
`Argument` struct is a union of four pointers of which exactly one is
non-nil (the all-nil case panics in `Eval` and is not representable
here), so it is embedded as a sum. -/

/-- VarDomain constants from domain.go. -/
inductive VarDomain : Type
  | default
  | cache
  | env
  | mak
deriving DecidableEq, Repr

mutual
/-- VariableReference: a domain plus name elements. -/
inductive VariableReference : Type
  | mk (domain : VarDomain) (elements : List VariableElement)

/-- VariableElement: a run of text and an optional nested reference
(`Text string`, `Ref *VariableReference`). -/
inductive VariableElement : Type
  | mk (text : String) (ref : Option VariableReference)
end

/-- QuotedElement: either a variable reference or plain text; a non-nil
`Ref` takes priority in `Eval`. -/
structure QuotedElement : Type where
  ref : Option VariableReference
  text : String

/-- QuotedArgument wraps a list of quoted elements. -/
structure QuotedArgument : Type where
  elements : List QuotedElement

/-- UnquotedElement: either a variable reference or plain text. -/
structure UnquotedElement : Type where
  ref : Option VariableReference
  text : String

/-- UnquotedArgument wraps a list of unquoted elements. -/
structure UnquotedArgument : Type where
  elements : List UnquotedElement

/-- BracketArgument carries raw bracket text. -/
structure BracketArgument : Type where
  text : String

/-- Argument: the four-way union from ast.go; `ofList` is the nested
parenthesized argument list (`ArgumentList *ArgumentList`). -/
inductive Argument : Type
  | ofList (values : List Argument)
  | ofQuoted (arg : QuotedArgument)
  | ofUnquoted (arg : UnquotedArgument)
  | ofBracket (arg : BracketArgument)

/-- Bindings interface used by the AST evaluator (ast/bindings.go). -/
structure BindingsIface : Type where
  get : String → String
  getCache : String → String
  getEnv : String → String

/-- Domain dispatch from VariableReference.Eval: the `DomainMake` and
default switch branches panic in Go, embedded as `none`. -/
def domainGetter (vars : BindingsIface) : VarDomain → Option (String → String)
  | .default => some vars.get
  | .cache => some vars.getCache
  | .env => some vars.getEnv
  | .mak => none

mutual
/-- VariableReference.Eval (eval.go): concatenate the element results into
the variable name, then perform the single domain lookup.  The result is
a one-element list in Go; a panic (unrecognized domain) is `none`. -/
def evalVariableReference (vars : BindingsIface) : VariableReference → Option (List String)
  | .mk d elems => do
    let name ← evalVariableElements vars elems
    let get ← domainGetter vars d
    pure [get (String.join name)]

/-- Accumulation loop `for _, e := range v.Elements` of VariableReference.Eval. -/
def evalVariableElements (vars : BindingsIface) : List VariableElement → Option (List String)
  | [] => some []
  | e :: es => do
    let hd ← evalVariableElement vars e
    let tl ← evalVariableElements vars es
    pure (hd ++ tl)

/-- VariableElement.Eval: parts start with the element text, the nested
reference results are appended, and everything is joined into one string. -/
def evalVariableElement (vars : BindingsIface) : VariableElement → Option (List String)
  | .mk t r => do
    let parts ← evalOptionalReference vars r
    pure [String.join (t :: parts)]

/-- Helper for the `if v.Ref != nil` guard of VariableElement.Eval. -/
def evalOptionalReference (vars : BindingsIface) : Option VariableReference → Option (List String)
  | none => some []
  | some r => evalVariableReference vars r
end

/-- QuotedElement.Eval: a non-nil Ref evaluates the reference, otherwise
the element text is returned verbatim (escape sequences carry a TODO in
the source and are not processed). -/
def evalQuotedElement (vars : BindingsIface) (e : QuotedElement) : Option (List String) :=
  match e.ref with
  | some r => evalVariableReference vars r
  | none => some [e.text]

/-- Accumulation loop of QuotedArgument.Eval over its elements. -/
def evalQuotedElements (vars : BindingsIface) : List QuotedElement → Option (List String)
  | [] => some []
  | e :: es => do
    let hd ← evalQuotedElement vars e
    let tl ← evalQuotedElements vars es
    pure (hd ++ tl)

/-- QuotedArgument.Eval: join the element parts into a single string;
semicolon-delimited lists are not separated. -/
def evalQuotedArgument (vars : BindingsIface) (a : QuotedArgument) : Option (List String) := do
  let parts ← evalQuotedElements vars a.elements
  pure [String.join parts]

/-- UnquotedElement.Eval: a non-nil Ref evaluates the reference, otherwise
the element text is returned verbatim.  NOTE: the source carries
`TODO(shahms): Deal with escape sequences and lists.` and performs no
semicolon splitting despite its doc comment. -/
def evalUnquotedElement (vars : BindingsIface) (e : UnquotedElement) : Option (List String) :=
  match e.ref with
  | some r => evalVariableReference vars r
  | none => some [e.text]

/-- Accumulation loop of UnquotedArgument.Eval over its elements. -/
def evalUnquotedElements (vars : BindingsIface) : List UnquotedElement → Option (List String)
  | [] => some []
  | e :: es => do
    let hd ← evalUnquotedElement vars e
    let tl ← evalUnquotedElements vars es
    pure (hd ++ tl)

/-- UnquotedArgument.Eval: join the element parts into a single string. -/
def evalUnquotedArgument (vars : BindingsIface) (a : UnquotedArgument) : Option (List String) := do
  let parts ← evalUnquotedElements vars a.elements
  pure [String.join parts]

/-- BracketArgument.Eval: the raw text, unevaluated. -/
def evalBracketArgument (_ : BindingsIface) (a : BracketArgument) : Option (List String) :=
  some [a.text]

mutual
/-- Argument.Eval: dispatch on the concrete argument kind; for a nested
argument list the literal parentheses are added around the inner values
(`values := []string LPAR ... RPAR`, ast/eval.go). -/
def evalArgument (vars : BindingsIface) : Argument → Option (List String)
  | .ofQuoted a => evalQuotedArgument vars a
  | .ofUnquoted a => evalUnquotedArgument vars a
  | .ofBracket a => evalBracketArgument vars a
  | .ofList l => do
    let inner ← evalArgumentList vars l
    pure ("(" :: inner ++ [")"])

/-- ArgumentList.Eval: append the evaluations of each argument in order,
inserting nothing itself. -/
def evalArgumentList (vars : BindingsIface) : List Argument → Option (List String)
  | [] => some []
  | a :: rest => do
    let hd ← evalArgument vars a
    let tl ← evalArgumentList vars rest
    pure (hd ++ tl)
end

/-! ## Evaluating dispatcher (llvmbzlgen.go)

The `eval` struct walks the commands of one file.  Sink interactions
(`WriteCommand` via `PrintCommand`) and recursion into a subdirectory
(`AddSubdirectory`) are recorded as events at the dispatcher boundary;
the balanced-block skipping, `set`/`unset` handling and the recurse-arity
check are modelled exactly.  Go panics surface as `Except.error`. -/

/-- One parsed CommandInvocation: a name and its argument list
(source positions omitted). -/
structure Command : Type where
  name : String
  args : List Argument

/-- Observable dispatcher effects: a sink write and a recursion request. -/
inductive Event : Type
  | write (name : String) (args : List String)
  | recurse (dir : String)
deriving DecidableEq, Repr

/-- Evaluator configuration: the three predicates from `options`
(a nil Go predicate behaves as the constant-false function, which the
total functions here subsume). -/
structure EvalConfig : Type where
  shouldPrint : String → Bool
  shouldAdd : String → Bool
  excludePath : String → Bool

/-- Dispatcher-visible state: the scope stack, the cache mapping and the
events issued so far. -/
structure EvalState : Type where
  vars : Mapping
  cache : Frame
  events : List Event

/-- Modelled from the spec: `SetCache(key, value)` writes to the separate
flat cache mapping, visible process-wide.  The method is called by the
dispatcher (`e.v.SetCache`) but its definition is not among the provided
sources; only this one-line spec sentence describes it. -/
def EvalState.setCache (st : EvalState) (key value : String) : EvalState :=
  { st with cache := st.cache.store key value }

/-- Bindings interface the evaluator hands to Argument.Eval: the real
scope-stack Get plus the stubbed GetCache/GetEnv of Mapping. -/
def Mapping.iface (m : Mapping) : BindingsIface :=
  { get := m.get, getCache := m.getCache, getEnv := m.getEnv }

/-- Lift an evaluation result into the dispatcher's error monad; `none`
is a Go panic (unrecognized variable domain). -/
def ofEval : Option (List String) → Except String (List String)
  | some vs => .ok vs
  | none => .error "panic: unrecognized domain"

/-- PrintCommand: evaluate the arguments against the current bindings and
forward them to the sink (writer errors are discarded by `dispatch` and
not modelled; sink writes always succeed here). -/
def printCommand (st : EvalState) (c : Command) : Except String EvalState := do
  let args ← ofEval (evalArgumentList st.vars.iface c.args)
  pure { st with events := st.events ++ [.write c.name args] }

/-- The `if e.shouldPrint(name)` prologue of dispatch. -/
def printPart (cfg : EvalConfig) (st : EvalState) (c : Command) : Except String EvalState :=
  if cfg.shouldPrint c.name then printCommand st c else pure st

/-- setVariable (llvmbzlgen.go): CMake `set` semantics.  An empty argument
list is a logged no-op; `PARENT_SCOPE` writes into the parent frame (a Go
panic at the root, surfaced as an error); trailing `CACHE` forms write to
the cache; otherwise the semicolon-joined remainder lands in the current
frame. -/
def setVariable (st : EvalState) (args : List String) : Except String EvalState :=
  match args with
  | [] => .ok st
  | key :: rest =>
    if rest.length > 0 ∧ rest.getLast? = some "PARENT_SCOPE" then
      match st.vars.setParent key (String.intercalate ";" rest.dropLast) with
      | some m => .ok { st with vars := m }
      | none => .error "panic: SetParent without a parent scope"
    else if rest.length ≥ 3 ∧ rest.get? (rest.length - 3) = some "CACHE" then
      .ok (st.setCache key (String.intercalate ";" (rest.take (rest.length - 3))))
    else if rest.length ≥ 4 ∧ rest.get? (rest.length - 4) = some "CACHE" then
      .ok (st.setCache key (String.intercalate ";" (rest.take (rest.length - 4))))
    else
      .ok { st with vars := st.vars.set key (String.intercalate ";" rest) }

/-- unsetVariable (llvmbzlgen.go): CMake `unset` semantics, tombstoning by
writing the empty string; unrecognized shapes are logged no-ops. -/
def unsetVariable (st : EvalState) (args : List String) : Except String EvalState :=
  match args with
  | [k] => .ok { st with vars := st.vars.set k "" }
  | [k, x] =>
    if x = "PARENT_SCOPE" then
      match st.vars.setParent k "" with
      | some m => .ok { st with vars := m }
      | none => .error "panic: SetParent without a parent scope"
    else if x = "CACHE" then .ok (st.setCache k "")
    else .ok st
  | _ => .ok st

/-- The four block-opening command names of the dispatch switch. -/
def isBlockOpener (name : String) : Bool :=
  name = "if" ∨ name = "function" ∨ name = "foreach" ∨ name = "macro"

/-- blockCounter.Count: increment on the begin delimiter, decrement on the
end delimiter; the Bool result is `matched || count > 0`, i.e. whether the
skip loop keeps consuming. -/
def countStep (b e : String) (count : Int) (text : String) : Int × Bool :=
  if text = b then (count + 1, true)
  else if text = e then (count - 1, true)
  else (count, count > 0)

/-- Number of commands the skip loop `for counter.Count(name) && cmds.Advance()`
consumes, starting with counter value `count` and the head of the list as
the current command name. -/
def skipSteps (b e : String) (count : Int) : List Command → Nat
  | [] => 0
  | c :: rest =>
    let s := countStep b e count c.name
    if s.2 then 1 + skipSteps b e s.1 rest else 0

/-- Commands remaining after the skip loop. -/
def skipBlock (b e : String) (count : Int) (cmds : List Command) : List Command :=
  cmds.drop (skipSteps b e count cmds)

/-- Counter value after feeding a list of command names to the block
counter. -/
def countFold (b e : String) (c : Int) (names : List String) : Int :=
  names.foldl (fun c n => (countStep b e c n).1) c

/-- Dispatch prefix for a command that is not a block opener: the print
prologue followed by the `set`/`unset` switch cases. -/
def preAddState (cfg : EvalConfig) (st : EvalState) (c : Command) : Except String EvalState := do
  let st ← printPart cfg st c
  match c.name with
  | "set" => do
    let args ← ofEval (evalArgumentList st.vars.iface c.args)
    setVariable st args
  | "unset" => do
    let args ← ofEval (evalArgumentList st.vars.iface c.args)
    unsetVariable st args
  | _ => pure st

/-- Recurse section of dispatch: evaluate the arguments, require exactly
one (else the fatal arity error), consult the exclude-path predicate and
only then re-evaluate the directory argument and record the recursion as
an event. -/
def addPart (cfg : EvalConfig) (st : EvalState) (c : Command) : Except String EvalState :=
  if cfg.shouldAdd c.name then do
    let args ← ofEval (evalArgumentList st.vars.iface c.args)
    if args.length ≠ 1 then
      .error "invalid number of arguments to directory command"
    else if ¬ cfg.excludePath (args.headD "") then do
      let args2 ← ofEval (evalArgumentList st.vars.iface c.args)
      pure { st with events := st.events ++ [.recurse (args2.headD "")] }
    else pure st
  else pure st

/-- Body of dispatch for a command that is not a block opener. -/
def dispatchOther (cfg : EvalConfig) (st : EvalState) (c : Command) : Except String EvalState := do
  let st ← preAddState cfg st c
  addPart cfg st c

/-- The dispatch loop of AddSubdirectory over one file's commands.  A
block-opening head runs the print prologue and then the skip loop
(`countStep` on the opener itself yields count 1 and continues, so the
loop proceeds on the tail with counter 1); any other head runs the full
dispatch body and advances by one. -/
def runCommands (cfg : EvalConfig) (st : EvalState) : List Command → Except String EvalState
  | [] => .ok st
  | c :: rest =>
    if isBlockOpener c.name then
      match printPart cfg st c with
      | .error e => .error e
      | .ok st1 => runCommands cfg st1 (skipBlock c.name ("end" ++ c.name) 1 rest)
    else
      match dispatchOther cfg st c with
      | .error e => .error e
      | .ok st1 => runCommands cfg st1 rest
termination_by cmds => cmds.length
decreasing_by
  · simp [skipBlock, List.length_drop]
    omega
  · simp

/-! ## Rule-table matcher (cmakelib/lexer/rules/rules.go)

A rule pattern is either the zero-width end-of-input marker (the Go
`EOFRegexp`, a nil pointer compiled from the empty pattern) or a compiled
regular expression.  A compiled expression is abstracted by the length of
its longest match anchored at position 0 of the data — exactly the
information `FindIndex` provides after `re.Longest()`: `locs[0] == 0` and
`locs[1]` (a leftmost match exists at 0 iff any match starts at 0, so
`none` also covers matches that begin later and are discarded). -/

/-- Pattern of one rule. -/
inductive RulePattern : Type
  | eofPat
  | rePat (m : List Char → Option Nat)

/-- One rule entry: start conditions, pattern, action. -/
structure LexRule (α : Type) : Type where
  conds : List Nat
  pat : RulePattern
  act : α

/-- Rules: the exclusivity map (`condMap`) and the ordered table. -/
structure RuleSet (α : Type) : Type where
  exclusive : Nat → Bool
  table : List (LexRule α)

/-- matchCondition: a rule with no conditions applies in any inclusive
condition; otherwise the current condition must be listed. -/
def matchCondition (rs : RuleSet α) (curr : Nat) (conds : List Nat) : Bool :=
  (conds.isEmpty && !rs.exclusive curr) || conds.contains curr

/-- The loop body of Rules.Match over the table, carrying the best
`(action, matched)` pair found so far.  An applicable EOF rule returns
immediately when no data remains; a regular rule wins only with a
strictly longer match than the current best
(`locs[1] > len(found.matched)`), so the earliest rule wins ties and a
zero-length match is never selected. -/
def rulesMatchAux (rs : RuleSet α) (curr : Nat) (data : List Char) :
    List (LexRule α) → Option α × List Char → Option α × List Char
  | [], found => found
  | r :: t, found =>
    if matchCondition rs curr r.conds then
      match r.pat with
      | .eofPat =>
        if data.isEmpty then (some r.act, [])
        else rulesMatchAux rs curr data t found
      | .rePat m =>
        match m data with
        | some len =>
          if found.2.length < len then
            rulesMatchAux rs curr data t (some r.act, data.take len)
          else rulesMatchAux rs curr data t found
        | none => rulesMatchAux rs curr data t found
    else rulesMatchAux rs curr data t found

/-- Rules.Match: fold the table starting from the empty best match. -/
def rulesMatch (rs : RuleSet α) (curr : Nat) (data : List Char) : Option α × List Char :=
  rulesMatchAux rs curr data rs.table (none, [])

/-- Effective match length a rule contributes on the given data: zero for
an inapplicable rule, an EOF rule, or a pattern with no anchored match. -/
def ruleEffLen (rs : RuleSet α) (curr : Nat) (data : List Char) (r : LexRule α) : Nat :=
  if matchCondition rs curr r.conds then
    match r.pat with
    | .rePat m => (m data).getD 0
    | .eofPat => 0
  else 0

/-- Longest effective match length over a table. -/
def bestLen (rs : RuleSet α) (curr : Nat) (data : List Char) : List (LexRule α) → Nat
  | [] => 0
  | r :: t => max (ruleEffLen rs curr data r) (bestLen rs curr data t)

/-- Action of the earliest rule attaining a given effective match
length. -/
def firstBestAct (rs : RuleSet α) (curr : Nat) (data : List Char)
    (table : List (LexRule α)) (b : Nat) : Option α :=
  (table.find? fun r => ruleEffLen rs curr data r == b).map LexRule.act

/-! ## Concrete matchers for the file table patterns (cmakelib/lexer/table.go)

Each Go regular expression of the table is embedded as a function giving
the length of its longest match at the start of the data.  All patterns
of the table are deterministic in this sense (every alternation is
decided by the first character, with the single exception of `$`, where
the make-variable branch strictly dominates treating `$` as an ordinary
unquoted character because `(` can continue no other branch). -/

/-- Length of the leading run of characters satisfying `p`. -/
def spanLen (p : Char → Bool) (s : List Char) : Nat :=
  (s.takeWhile p).length

/-- Matcher for the newline pattern. -/
def mNewline : List Char → Option Nat
  | c :: _ => if c = '\n' then some 1 else none
  | [] => none

/-- Core of the bracket-open pattern after the optional leading hash:
an opening square bracket, a run of equals signs, a second opening
bracket and optionally one newline. -/
def mBracketOpenCore : List Char → Option Nat
  | '[' :: rest =>
    let k := spanLen (· = '=') rest
    match rest.drop k with
    | '[' :: more =>
      some (2 + k + (match more with | '\n' :: _ => 1 | _ => 0))
    | _ => none
  | _ => none

/-- Matcher for the bracket-open pattern of table.go line 53 (optional
hash, then the bracket delimiter, then an optional newline). -/
def mBracketOpen (s : List Char) : Option Nat :=
  match s with
  | '#' :: rest => (mBracketOpenCore rest).map (· + 1)
  | _ => mBracketOpenCore s

/-- Matcher for the single hash pattern. -/
def mHash : List Char → Option Nat
  | '#' :: _ => some 1
  | _ => none

/-- Character class excluding NUL and newline. -/
def notNulNl (c : Char) : Bool :=
  !(c = Char.ofNat 0) && !(c = '\n')

/-- Matcher for the comment-body pattern (a possibly empty run of
characters other than NUL and newline). -/
def mCommentBody (s : List Char) : Option Nat :=
  some (spanLen notNulNl s)

/-- Matcher for the parenthesis class. -/
def mParen : List Char → Option Nat
  | c :: _ => if c = '(' ∨ c = ')' then some 1 else none
  | [] => none

/-- First character of an identifier (the class written `A-Zaa-z_`). -/
def isIdentStart (c : Char) : Bool :=
  ('A' ≤ c && c ≤ 'Z') || ('a' ≤ c && c ≤ 'z') || c = '_'

/-- Subsequent identifier characters. -/
def isIdentRest (c : Char) : Bool :=
  isIdentStart c || ('0' ≤ c && c ≤ '9')

/-- Matcher for the identifier pattern. -/
def mIdent : List Char → Option Nat
  | c :: cs => if isIdentStart c then some (1 + spanLen isIdentRest cs) else none
  | [] => none

/-- Matcher for the bracket-tail pattern: a closing bracket followed by a
run of equals signs. -/
def mBracketTail : List Char → Option Nat
  | c :: rest => if c = ']' then some (1 + spanLen (· = '=') rest) else none
  | [] => none

/-- Matcher for the single closing bracket pattern. -/
def mCloseBracket : List Char → Option Nat
  | ']' :: _ => some 1
  | _ => none

/-- Bracket content characters: anything but a closing bracket, NUL or
newline (the class opens with a literal closing bracket). -/
def isBracketContentChar (c : Char) : Bool :=
  !(c = ']') && notNulNl c

/-- Matcher for the bracket-content pattern (a nonempty run). -/
def mBracketContent (s : List Char) : Option Nat :=
  let k := spanLen isBracketContentChar s
  if k = 0 then none else some k

/-- Matcher for a single character other than NUL and newline. -/
def mNotNulNlChar : List Char → Option Nat
  | c :: _ => if notNulNl c then some 1 else none
  | [] => none

/-- The unquoted character class of table.go line 41 (excludes blank,
NUL, tab, carriage return, newline, parens, hash, backslash, quote,
opening bracket and the equals sign). -/
def isUnquotedChar (c : Char) : Bool :=
  !([' ', Char.ofNat 0, '\t', '\r', '\n', '(', ')', '#', '\\', '"', '[', '='].contains c)

/-- One element of the unquoted pattern: a plain unquoted character or a
backslash escape of anything but NUL and newline. -/
def matchUnquotedElem : List Char → Option Nat
  | [] => none
  | c :: cs =>
    if isUnquotedChar c then some 1
    else if c = '\\' then
      match cs with
      | d :: _ => if notNulNl d then some 2 else none
      | [] => none
    else none

/-- Greedy run for the trailing star of the plain unquoted pattern
(unquoted elements, opening brackets and equals signs). -/
def unquotedStar : List Char → Nat
  | [] => 0
  | c :: cs =>
    if isUnquotedChar c then 1 + unquotedStar cs
    else if c = '\\' then
      match cs with
      | d :: ds => if notNulNl d then 2 + unquotedStar ds else 0
      | [] => 0
    else if c = '[' ∨ c = '=' then 1 + unquotedStar cs
    else 0

/-- The first-element alternation of the plain unquoted pattern: an
unquoted element, a bare equals sign, or an opening bracket with an
equals run that must be completed by an unquoted element. -/
def firstUnquotedElem (s : List Char) : Option Nat :=
  match matchUnquotedElem s with
  | some k => some k
  | none =>
    match s with
    | '=' :: _ => some 1
    | '[' :: cs =>
      let k := spanLen (· = '=') cs
      (matchUnquotedElem (cs.drop k)).map (fun m => 1 + k + m)
    | _ => none

/-- Matcher for the plain unquoted pattern of table.go line 64. -/
def mUnquoted (s : List Char) : Option Nat :=
  (firstUnquotedElem s).map (fun k => k + unquotedStar (s.drop k))

/-- Make-variable name characters. -/
def isMakeVarChar (c : Char) : Bool :=
  ('A' ≤ c && c ≤ 'Z') || ('a' ≤ c && c ≤ 'z') || ('0' ≤ c && c ≤ '9') || c = '_'

/-- Matcher for the make-variable pattern (dollar, open paren, a name
run, close paren). -/
def mMakeVar : List Char → Option Nat
  | '$' :: '(' :: rest =>
    let k := spanLen isMakeVarChar rest
    match rest.drop k with
    | ')' :: _ => some (3 + k)
    | _ => none
  | _ => none

/-- Remainder of a legacy quoted run after its opening quote: make
variables, unquoted elements, blanks, tabs, brackets and equals signs up
to the closing quote; `none` when no closing quote can be reached.  The
result includes the closing quote. -/
def legacyQuotedTail : List Char → Option Nat
  | [] => none
  | c :: cs =>
    if c = '"' then some 1
    else if c = '$' then
      match cs with
      | '(' :: rest =>
        let k := spanLen isMakeVarChar rest
        match hm : rest.drop k with
        | ')' :: more => (legacyQuotedTail more).map (fun t => 3 + k + t)
        | _ => none
      | cs2 => (legacyQuotedTail cs2).map (1 + ·)
    else if isUnquotedChar c then (legacyQuotedTail cs).map (1 + ·)
    else if c = '\\' then
      match cs with
      | d :: ds => if notNulNl d then (legacyQuotedTail ds).map (2 + ·) else none
      | [] => none
    else if c = ' ' ∨ c = '\t' ∨ c = '[' ∨ c = '=' then (legacyQuotedTail cs).map (1 + ·)
    else none
termination_by s => s.length
decreasing_by all_goals
  first
  | (simp only [List.length_cons]
     have hlen := congrArg List.length hm
     simp only [List.length_cons, List.length_drop] at hlen
     omega)
  | simp_arith
  | (simp only [List.length_cons]; omega)

/-- Greedy run for the trailing star of the legacy unquoted pattern:
legacy elements (make variables, unquoted elements, legacy quoted runs),
opening brackets and equals signs. -/
def legacyStar : List Char → Nat
  | [] => 0
  | c :: cs =>
    if c = '$' then
      match cs with
      | '(' :: rest =>
        let k := spanLen isMakeVarChar rest
        match hm : rest.drop k with
        | ')' :: more => 3 + k + legacyStar more
        | _ => 1 + legacyStar ('(' :: rest)
      | cs2 => 1 + legacyStar cs2
    else if c = '"' then
      match legacyQuotedTail cs with
      | some t => 1 + t + legacyStar (cs.drop t)
      | none => 0
    else if isUnquotedChar c then 1 + legacyStar cs
    else if c = '\\' then
      match cs with
      | d :: ds => if notNulNl d then 2 + legacyStar ds else 0
      | [] => 0
    else if c = '[' ∨ c = '=' then 1 + legacyStar cs
    else 0
termination_by s => s.length
decreasing_by all_goals
  first
  | (simp only [List.length_cons]
     have hlen := congrArg List.length hm
     simp only [List.length_cons, List.length_drop] at hlen
     omega)
  | (simp only [List.length_cons]
     have hd := List.length_drop_le t cs
     omega)
  | simp_arith
  | (simp only [List.length_cons]; omega)

/-- One legacy element for the bracketed first alternative of the legacy
unquoted pattern: a make variable, an unquoted element, or a quoted run. -/
def legacyElemL (s : List Char) : Option Nat :=
  match mMakeVar s with
  | some k => some k
  | none =>
    match matchUnquotedElem s with
    | some k => some k
    | none =>
      match s with
      | '"' :: cs => (legacyQuotedTail cs).map (1 + ·)
      | _ => none

/-- The first-element alternation of the legacy unquoted pattern. -/
def firstLegacyElem (s : List Char) : Option Nat :=
  match mMakeVar s with
  | some k => some k
  | none =>
    match matchUnquotedElem s with
    | some k => some k
    | none =>
      match s with
      | '=' :: _ => some 1
      | '[' :: cs =>
        let k := spanLen (· = '=') cs
        (legacyElemL (cs.drop k)).map (fun m => 1 + k + m)
      | _ => none

/-- Matcher for the legacy unquoted pattern of table.go line 65. -/
def mUnquotedLegacy (s : List Char) : Option Nat :=
  (firstLegacyElem s).map (fun k => k + legacyStar (s.drop k))

/-- Matcher for the lone opening bracket pattern. -/
def mLeftBracket : List Char → Option Nat
  | '[' :: _ => some 1
  | _ => none

/-- Matcher for the double-quote pattern. -/
def mQuote : List Char → Option Nat
  | '"' :: _ => some 1
  | _ => none

/-- Greedy run of quoted-string characters: anything but backslash, NUL,
newline and quote, or a backslash escape of anything but NUL and
newline. -/
def quotedRunLen : List Char → Nat
  | [] => 0
  | c :: cs =>
    if c = '\\' then
      match cs with
      | d :: ds => if notNulNl d then 2 + quotedRunLen ds else 0
      | [] => 0
    else if c = Char.ofNat 0 ∨ c = '\n' ∨ c = '"' then 0
    else 1 + quotedRunLen cs

/-- Matcher for the quoted-run pattern (a nonempty run). -/
def mQuotedRun (s : List Char) : Option Nat :=
  let k := quotedRunLen s
  if k = 0 then none else some k

/-- Matcher for the backslash-newline continuation pattern. -/
def mContinuation : List Char → Option Nat
  | '\\' :: '\n' :: _ => some 2
  | _ => none

/-- Matcher for the dot pattern (any character except newline). -/
def mAnyChar : List Char → Option Nat
  | c :: _ => if c = '\n' then none else some 1
  | [] => none

/-- Blank-run characters. -/
def isBlankChar (c : Char) : Bool :=
  c = ' ' || c = '\t' || c = '\r'

/-- Matcher for the blank-run pattern (a nonempty run). -/
def mSpace (s : List Char) : Option Nat :=
  let k := spanLen isBlankChar s
  if k = 0 then none else some k

/-! ## The file rule table and its driver (cmakelib/lexer/table.go)

Start conditions follow the iota block of table.go: initial 0, comment 1,
bracket 2, bracket-end 3, string 4; the last four are exclusive.  Actions
become an enumeration interpreted by `runFileAct`. -/

/-- Token categories (lexer.go); the participle EOF sentinel becomes
`eofKind`. -/
inductive TokKind : Type
  | eofKind
  | space
  | newline
  | escapeSequence
  | quoted
  | quote
  | bracketContent
  | bracketComment
  | varOpen
  | varClose
  | identifier
  | unquoted
  | punct
  | comment
deriving DecidableEq, Repr

/-- One lexer token: kind and matched text (position omitted). -/
structure LexToken : Type where
  kind : TokKind
  value : List Char
deriving DecidableEq, Repr

/-- Action names of the file table. -/
inductive FileAct : Type
  | newlineAct
  | bracketOpenAct
  | commentStartAct
  | commentAct
  | parenAct
  | identifierAct
  | bracketTailAct
  | bracketCloseAct
  | bracketContentAct
  | bracketResetAct
  | bracketEOFAct
  | unquotedAct
  | openQuoteAct
  | quotedAct
  | continuationAct
  | endQuoteAct
  | quotedEOFAct
  | spaceAct
  | unexpectedAct
  | eofAct
deriving DecidableEq, Repr

/-- The file rule table entries, in the registration order of table.go
lines 52-76. -/
def fileTableList : List (LexRule FileAct) := [
    ⟨[0, 1], .rePat mNewline, .newlineAct⟩,
    ⟨[], .rePat mBracketOpen, .bracketOpenAct⟩,
    ⟨[], .rePat mHash, .commentStartAct⟩,
    ⟨[1], .rePat mCommentBody, .commentAct⟩,
    ⟨[], .rePat mParen, .parenAct⟩,
    ⟨[], .rePat mIdent, .identifierAct⟩,
    ⟨[2], .rePat mBracketTail, .bracketTailAct⟩,
    ⟨[3], .rePat mCloseBracket, .bracketCloseAct⟩,
    ⟨[2], .rePat mBracketContent, .bracketContentAct⟩,
    ⟨[2, 3], .rePat mNewline, .bracketResetAct⟩,
    ⟨[2, 3], .rePat mNotNulNlChar, .bracketResetAct⟩,
    ⟨[2, 3], .eofPat, .bracketEOFAct⟩,
    ⟨[], .rePat mUnquoted, .unquotedAct⟩,
    ⟨[], .rePat mUnquotedLegacy, .unquotedAct⟩,
    ⟨[], .rePat mLeftBracket, .unquotedAct⟩,
    ⟨[], .rePat mQuote, .openQuoteAct⟩,
    ⟨[4], .rePat mQuotedRun, .quotedAct⟩,
    ⟨[4], .rePat mContinuation, .continuationAct⟩,
    ⟨[4], .rePat mNewline, .quotedAct⟩,
    ⟨[4], .rePat mQuote, .endQuoteAct⟩,
    ⟨[4], .rePat mNotNulNlChar, .quotedAct⟩,
    ⟨[4], .eofPat, .quotedEOFAct⟩,
    ⟨[], .rePat mSpace, .spaceAct⟩,
    ⟨[], .rePat mAnyChar, .unexpectedAct⟩,
    ⟨[], .eofPat, .eofAct⟩]

/-- The file rule set: the table above with the exclusivity of the
comment, bracket, bracket-end and string conditions. -/
def fileRules : RuleSet FileAct where
  exclusive := fun c => (c == 1) || (c == 2) || (c == 3) || (c == 4)
  table := fileTableList

/-- Driver state of the tableLexer: the pending token buffer (whose last
element is the token under construction), the scanner start condition and
the bracket delimiter length (`-1` until a bracket opens). -/
structure LexDriver : Type where
  buf : List LexToken
  cond : Nat
  bracket : Int

/-- Rewrite the token under construction (the Go `d.Token()` pointer is
`&d.buf[len(d.buf)-1]`). -/
def LexDriver.updateTok (d : LexDriver) (f : LexToken → LexToken) : LexDriver :=
  { d with buf := d.buf.dropLast ++ [f (d.buf.getLast?.getD ⟨.eofKind, []⟩)] }

/-- setValue on the token under construction. -/
def LexDriver.setValue (d : LexDriver) (kind : TokKind) (value : List Char) : LexDriver :=
  d.updateTok fun _ => ⟨kind, value⟩

/-- appendText on the token under construction. -/
def LexDriver.appendText (d : LexDriver) (value : List Char) : LexDriver :=
  d.updateTok fun t => ⟨t.kind, t.value ++ value⟩

/-- Begin: transition the start condition. -/
def LexDriver.begin (d : LexDriver) (cond : Nat) : LexDriver :=
  { d with cond := cond }

/-- Go bytes.IndexByte. -/
def idxOf (l : List Char) (c : Char) : Int :=
  match l.findIdx? (· = c) with
  | some i => (i : Int)
  | none => -1

/-- Go bytes.LastIndexByte. -/
def lastIdxOf (l : List Char) (c : Char) : Int :=
  match l.reverse.findIdx? (· = c) with
  | some i => (l.length : Int) - 1 - (i : Int)
  | none => -1

/-- Interpretation of the file-table actions (the lex* callbacks of
table.go).  The Bool result is the Go `done` flag; lexer errors surface
in the Except layer.  `text` is the matched input (`d.Bytes()`). -/
def runFileAct (a : FileAct) (d : LexDriver) (text : List Char) :
    Except String (LexDriver × Bool) :=
  match a with
  | .newlineAct => .ok ((d.setValue .newline text).begin 0, true)
  | .commentStartAct => .ok (d.begin 1, false)
  | .commentAct => .ok (d, false)
  | .parenAct => .ok (d.setValue .punct text, true)
  | .identifierAct => .ok (d.setValue .identifier text, true)
  | .bracketOpenAct =>
    let d :=
      if text.head? = some '#' then d.setValue .bracketComment []
      else d.setValue .bracketContent []
    let d := d.begin 2
    .ok ({ d with bracket := lastIdxOf text '[' - idxOf text '[' }, false)
  | .bracketTailAct =>
    let d := d.appendText text
    .ok (if (text.length : Int) = d.bracket then d.begin 3 else d, false)
  | .bracketCloseAct =>
    let tok := d.buf.getLast?.getD ⟨.eofKind, []⟩
    if 0 ≤ d.bracket ∧ d.bracket ≤ (tok.value.length : Int) then
      let d := (d.begin 0).updateTok fun t =>
        ⟨t.kind, t.value.take (t.value.length - d.bracket.toNat)⟩
      if tok.kind = .bracketComment then .ok (d, false) else .ok (d, true)
    else .error "panic: slice bounds out of range"
  | .bracketContentAct => .ok (d.appendText text, false)
  | .bracketResetAct => .ok ((d.begin 2).appendText text, false)
  | .bracketEOFAct => .error "unterminated bracket"
  | .unquotedAct => .ok (d.setValue .unquoted text, true)
  | .openQuoteAct =>
    let d := d.setValue .quote ['"']
    .ok (({ d with buf := d.buf ++ [(⟨.quoted, []⟩ : LexToken)] }).begin 4, false)
  | .quotedAct => .ok (d.appendText text, false)
  | .continuationAct => .ok (d, false)
  | .endQuoteAct =>
    let d := d.begin 0
    .ok ({ d with buf := d.buf ++ [(⟨.quote, ['"']⟩ : LexToken)] }, true)
  | .quotedEOFAct => .error "unterminated string"
  | .spaceAct => .ok (d.setValue .space text, true)
  | .unexpectedAct => .error "invalid token"
  | .eofAct => .ok (d.updateTok fun _ => ⟨.eofKind, []⟩, true)

/-- One tableLexer.advance() call: repeatedly Scan and run the selected
action until an action reports done (emitting the buffered tokens) or the
data runs out (where the applicable EOF rule's action runs once), or a
rule/action reports an error.  Fuel only bounds the recursion; every
non-final step consumes at least one character, so `length + 1` fuel (see
`tableAdvance`) never runs out. -/
def advanceLoop (fuel : Nat) (d : LexDriver) (data : List Char) :
    Except String (LexDriver × List Char) :=
  match fuel with
  | 0 => .error "out of fuel"
  | fuel + 1 =>
    match rulesMatch fileRules d.cond data with
    | (none, _) => .error "invalid token"
    | (some a, tok) =>
      if data.isEmpty then
        match runFileAct a d [] with
        | .error e => .error e
        | .ok (d', _) => .ok (d', [])
      else
        match runFileAct a d tok with
        | .error e => .error e
        | .ok (d', true) => .ok (d', data.drop tok.length)
        | .ok (d', false) => advanceLoop fuel d' (data.drop tok.length)

/-- advance(): reset the buffer to a single pending EOF token, then loop. -/
def tableAdvance (d : LexDriver) (data : List Char) : Except String (LexDriver × List Char) :=
  advanceLoop (data.length + 1) { d with buf := [⟨.eofKind, []⟩] } data

/-- First token produced by the file lexer on the given input, starting
from the initial condition with no bracket delimiter (Next() returns the
front of the buffer the first completed advance() leaves behind). -/
def firstToken (input : List Char) : Except String LexToken :=
  (tableAdvance ⟨[], 0, -1⟩ input).map fun p => p.1.buf.headD (⟨.eofKind, []⟩ : LexToken)

/-! ## Concrete instances used by counterexamples and witnesses -/

/-- A child frame holding only the tombstone for key k. -/
def c1Child : Frame := Frame.empty.store "k" ""

/-- A root frame binding k to the non-empty value v. -/
def c1Root : Frame := Frame.empty.store "k" "v"

/-- Stack with the tombstone frame pushed over the root binding. -/
def c1Demo : Mapping := [c1Child, c1Root]

/-- Trivial bindings interface: every lookup yields the empty string. -/
def trivBindings : BindingsIface :=
  { get := fun _ => "", getCache := fun _ => "", getEnv := fun _ => "" }

/-- The AST of the inner reference to the variable VAR. -/
def varRefVAR : VariableReference := .mk .default [.mk "VAR" none]

/-- The AST the parser produces for the nested reference with prefix text
pre_, the nested reference to VAR and suffix text _post (see the
TestVariableReferences expectations in the parser tests). -/
def nestedPrePost : VariableReference :=
  .mk .default [.mk "pre_" (some varRefVAR), .mk "_post" none]

/-- Bindings in which only VAR is bound (to X). -/
def c6Bindings : BindingsIface := (Mapping.new.set "VAR" "X").iface

/-- Configuration with no print, recurse or exclude predicates. -/
def cfgQuiet : EvalConfig :=
  { shouldPrint := fun _ => false, shouldAdd := fun _ => false, excludePath := fun _ => false }

/-- Fresh evaluator state: one empty root scope, empty cache, no events. -/
def stInit : EvalState := { vars := Mapping.new, cache := Frame.empty, events := [] }

/-- The command set(X 1), as two unquoted arguments. -/
def c5SetX : Command :=
  { name := "set",
    args := [.ofUnquoted ⟨[⟨none, "X"⟩]⟩, .ofUnquoted ⟨[⟨none, "1"⟩]⟩] }

/-- Command list if / endif / endif / if / set(X 1) / endif: the first
balanced block is the leading if-endif pair. -/
def c5Full : List Command :=
  [⟨"if", []⟩, ⟨"endif", []⟩, ⟨"endif", []⟩, ⟨"if", []⟩, c5SetX, ⟨"endif", []⟩]

/-- The commands following the balanced closer of the first block. -/
def c5Rest : List Command :=
  [⟨"endif", []⟩, ⟨"if", []⟩, c5SetX, ⟨"endif", []⟩]

/-- Configuration that recurses into add_subdirectory commands. -/
def cfgAdd : EvalConfig :=
  { shouldPrint := fun _ => false,
    shouldAdd := fun n => n = "add_subdirectory",
    excludePath := fun _ => false }

/-- An add_subdirectory command with two evaluated arguments. -/
def c8TwoArgs : Command :=
  { name := "add_subdirectory",
    args := [.ofUnquoted ⟨[⟨none, "a"⟩]⟩, .ofUnquoted ⟨[⟨none, "b"⟩]⟩] }

/-- Small three-rule table: a length-one match declared first, then two
length-two matches; actions are numbered by declaration order. -/
def rsW : RuleSet Nat :=
  { exclusive := fun _ => false,
    table := [
      ⟨[], .rePat fun _ => some 1, 10⟩,
      ⟨[], .rePat fun _ => some 2, 20⟩,
      ⟨[], .rePat fun _ => some 2, 30⟩] }

/-! ## Theorems -/

/-- Peeling one (topmost) frame off the Values() fold. -/
theorem values_cons (f : Frame) (r : List Frame) :
    Mapping.values (f :: r) = Frame.applyTo (Mapping.values r) f := by
  unfold Mapping.values
  rw [List.reverse_cons, List.foldl_append]
  rfl

/-- C1 (amended): in the flattened view computed by Values(), a key is
mapped according to the most recently pushed frame that binds it — and is
omitted entirely when that binding is the empty string.  In particular a
tombstone in a descendant frame masks non-empty bindings of the same key
in ancestor frames, instead of removing only its own frame's
contribution. -/
theorem c1_values_topmost (m : Mapping) (k : String) :
    m.values k =
      (match m.topEntry k with
       | some v => if v = "" then none else some v
       | none => none) := by
  induction m with
  | nil =>
    show (fun _ => (none : Option String)) k = _
    simp [Mapping.topEntry]
  | cons f r ih =>
    rw [values_cons]
    show Frame.applyTo (Mapping.values r) f k = _
    unfold Frame.applyTo Mapping.topEntry
    cases h : f k with
    | some v => simp [h]
    | none => simp [h, ih]

/-- C1 (counterexample): with the root frame binding k to "v" and the
pushed child frame binding k to the empty string, Values() omits k
entirely, contradicting the claim that it still contains k with the
ancestor's value "v". -/
theorem c1_counterexample :
    c1Root "k" = some "v" ∧ c1Child "k" = some "" ∧
      Mapping.values c1Demo "k" = none ∧
      ¬ Mapping.values c1Demo "k" = some "v" := by
  refine ⟨rfl, rfl, ?_, ?_⟩ <;> simp [c1Demo, Mapping.values, Frame.applyTo, c1Child, c1Root,
    Frame.store, Frame.empty]

/-- C3 (amended): SetParent writes the key into the frame directly below
the top whenever at least two frames exist; with only the root frame (or
an empty stack) the Go slice index `len(vs)-2` is out of range and the
call panics — it is not a diagnosed no-op. -/
theorem c3_setParent_depths (k v : String) (t p f : Frame) (r : List Frame) :
    Mapping.setParent (t :: p :: r) k v = some (t :: p.store k v :: r) ∧
    Mapping.setParent [f] k v = none ∧
    Mapping.setParent ([] : Mapping) k v = none :=
  ⟨rfl, rfl, rfl⟩

/-- C3 (counterexample): on a mapping consisting of only the root frame,
SetParent panics (embedded as `none`); in particular it does not leave
the mapping unchanged as the claim states. -/
theorem c3_counterexample :
    Mapping.setParent [Frame.empty] "k" "v" = none ∧
      ¬ Mapping.setParent [Frame.empty] "k" "v" = some [Frame.empty] := by
  exact ⟨rfl, by simp [Mapping.setParent]⟩

/-- C7: scope shadowing.  Starting from any nonempty stack, after
Set(k,a) and Push(), Get k still sees a (Get searches top-down and skips
the fresh empty frame); after Set(k,b) in the child, Get k sees b; after
Pop(), Get k sees a again — Pop restores exactly the binding visible
before the matching Push. -/
theorem c7_scope_shadowing (k a b : String) (f : Frame) (rest : List Frame) :
    ((Mapping.set (f :: rest) k a).push.get k = a) ∧
    (((Mapping.set (f :: rest) k a).push.set k b).get k = b) ∧
    ((((Mapping.set (f :: rest) k a).push.set k b).pop).get k = a) := by
  refine ⟨?_, ?_, ?_⟩ <;>
    simp [Mapping.set, Mapping.push, Mapping.pop, Mapping.get, Frame.store, Frame.empty]

/-- Prepending the empty string leaves a string unchanged. -/
theorem empty_append_str (s : String) : "" ++ s = s := rfl

/-- C2 (code evaluation at the failing input): evaluating the unquoted
argument whose sole element is the literal text A;B;C yields the single
string A;B;C — the evaluator performs no semicolon split (the
TODO-stubbed UnquotedElement.Eval returns the text verbatim), exactly as
a quoted argument does. -/
theorem c2_no_semicolon_split :
    evalUnquotedArgument trivBindings ⟨[⟨none, "A;B;C"⟩]⟩ = some ["A;B;C"] ∧
    evalQuotedArgument trivBindings ⟨[⟨none, "A;B;C"⟩]⟩ = some ["A;B;C"] :=
  ⟨rfl, rfl⟩

/-- C9: only a nested parenthesized argument list contributes the literal
parenthesis strings, which are placed around the flattened evaluation of
the inner arguments; the top-level ArgumentList.Eval is the plain
concatenation of its members' evaluations and inserts nothing. -/
theorem c9_nested_list_parens (vars : BindingsIface) :
    (∀ inner : List Argument,
      evalArgument vars (.ofList inner) =
        (evalArgumentList vars inner).map fun vs => "(" :: vs ++ [")"]) ∧
    (∀ args : List Argument,
      evalArgumentList vars args = (args.mapM (evalArgument vars)).map List.join) := by
  constructor
  · intro inner
    cases h : evalArgumentList vars inner <;>
      simp [evalArgument, h, Option.bind]
  · intro args
    induction args with
    | nil => simp only [evalArgumentList, List.mapM_nil, Option.map_some]; rfl
    | cons a rest ih =>
      rw [evalArgumentList, ih]
      rw [List.mapM_cons]
      cases ha : evalArgument vars a <;>
        cases hr : rest.mapM (evalArgument vars) <;>
          simp [ha, hr, Option.bind]

/-- C6 (amended): for every bindings state, evaluating the nested
reference written as pre_ then the reference to VAR then _post resolves
the inner reference first, assembles the full name by concatenation
(pre_ + value of VAR + _post) and performs a single lookup of that
assembled name; the result is the one-element list holding that lookup's
value (not the assembled name itself). -/
theorem c6_nested_reference (vars : BindingsIface) :
    evalVariableReference vars nestedPrePost =
      some [vars.get ("pre_" ++ vars.get "VAR" ++ "_post")] := by
  simp [nestedPrePost, varRefVAR, evalVariableReference, evalVariableElements,
    evalVariableElement, evalOptionalReference, domainGetter, String.join,
    empty_append_str]

/-- C6 (counterexample): in a bindings state where only VAR is bound (to
X), the nested reference evaluates to the single empty string — the
lookup of the assembled name pre_X_post, which is unbound — and not to
the string pre_X_post that the claim promises. -/
theorem c6_counterexample :
    evalVariableReference c6Bindings nestedPrePost = some [""] ∧
      ¬ evalVariableReference c6Bindings nestedPrePost = some ["pre_X_post"] := by
  refine ⟨?_, ?_⟩ <;>
    simp [c6Bindings, nestedPrePost, varRefVAR, evalVariableReference,
      evalVariableElements, evalVariableElement, evalOptionalReference, domainGetter,
      String.join, Mapping.new, Mapping.set, Mapping.iface, Mapping.get,
      Frame.store, Frame.empty, empty_append_str]

/-- Feeding one more name to the block counter. -/
theorem countFold_cons (b e : String) (c : Int) (n : String) (ns : List String) :
    countFold b e c (n :: ns) = countFold b e (countStep b e c n).1 ns := rfl

/-- The skip loop consumes exactly a balanced body plus its closer when
the counter stays positive throughout the body, returns to one just
before the closer, and the first remaining command matches neither
delimiter. -/
theorem skipSteps_through (b e : String) (hbe : e ≠ b)
    (closer : Command) (hc : closer.name = e)
    (rest : List Command)
    (hrest : rest = [] ∨ ∃ r rs, rest = r :: rs ∧ r.name ≠ b ∧ r.name ≠ e) :
    ∀ (body : List Command) (c0 : Int),
      (∀ i, i ≤ body.length →
        0 < countFold b e c0 ((body.take i).map Command.name)) →
      countFold b e c0 (body.map Command.name) = 1 →
      skipSteps b e c0 (body ++ closer :: rest) = body.length + 1 := by
  intro body
  induction body with
  | nil =>
    intro c0 _ hfin
    have hc0 : c0 = 1 := hfin
    subst hc0
    show skipSteps b e 1 (closer :: rest) = 1
    rw [skipSteps]
    have hstep : countStep b e 1 closer.name = (0, true) := by
      rw [hc]
      unfold countStep
      rw [if_neg hbe, if_pos rfl]
      norm_num
    rw [hstep]
    simp only [if_pos trivial]
    rcases hrest with h | ⟨r, rs, hr, hrb, hre⟩
    · subst h; rfl
    · subst hr
      rw [skipSteps]
      have hstep2 : countStep b e 0 r.name = (0, false) := by
        unfold countStep
        rw [if_neg hrb, if_neg hre]
        norm_num
      rw [hstep2]
      simp
  | cons cH body' ih =>
    intro c0 hpos hfin
    show skipSteps b e c0 (cH :: (body' ++ closer :: rest)) = body'.length + 1 + 1
    rw [skipSteps]
    have hcont : (countStep b e c0 cH.name).2 = true := by
      have hc0 : 0 < c0 := by
        have := hpos 0 (by omega)
        simpa [countFold] using this
      unfold countStep
      by_cases h1 : cH.name = b
      · simp [h1]
      · by_cases h2 : cH.name = e
        · simp [h1, h2, hbe]
        · simp [h1, h2, hc0]
    rw [hcont]
    simp only [if_pos trivial]
    have hrec := ih (countStep b e c0 cH.name).1
      (fun i hi => by
        have := hpos (i + 1) (by simpa using Nat.succ_le_succ hi)
        rwa [List.take_succ_cons, List.map_cons, countFold_cons] at this)
      (by rwa [List.map_cons, countFold_cons] at hfin)
    omega

/-- Remaining commands after skipping a balanced block. -/
theorem skipBlock_through (b e : String) (hbe : e ≠ b)
    (closer : Command) (hc : closer.name = e)
    (rest : List Command)
    (hrest : rest = [] ∨ ∃ r rs, rest = r :: rs ∧ r.name ≠ b ∧ r.name ≠ e)
    (body : List Command) (c0 : Int)
    (hpos : ∀ i, i ≤ body.length →
      0 < countFold b e c0 ((body.take i).map Command.name))
    (hfin : countFold b e c0 (body.map Command.name) = 1) :
    skipBlock b e c0 (body ++ closer :: rest) = rest := by
  unfold skipBlock
  rw [skipSteps_through b e hbe closer hc rest hrest body c0 hpos hfin]
  have : body ++ closer :: rest = (body ++ [closer]) ++ rest := by simp
  rw [this]
  have hlen : body.length + 1 = (body ++ [closer]).length := by simp
  rw [hlen, List.drop_left]

/-- C5 (amended): on a block-opening command the dispatcher consumes the
following commands without evaluating them until the balanced closer of
the same kind is seen at depth zero (only same-kind openers increment and
only the same-kind closer decrements the counter), and — provided the
command immediately following that closer is not itself named like the
opener or its closer, and the opener is not printed — resumes normal
dispatch at the command following the closer: the whole run equals the
run of the remaining commands from the unchanged state.  (When the next
command does carry one of the two delimiter names, the single skip loop
keeps consuming, as the counterexample shows.) -/
theorem c5_skip_balanced_block (cfg : EvalConfig) (st : EvalState)
    (opener closer : Command) (body rest : List Command)
    (hop : isBlockOpener opener.name = true)
    (hcl : closer.name = "end" ++ opener.name)
    (hpr : cfg.shouldPrint opener.name = false)
    (hbal : ∀ i, i ≤ body.length →
      0 < countFold opener.name ("end" ++ opener.name) 1 ((body.take i).map Command.name))
    (hfin : countFold opener.name ("end" ++ opener.name) 1 (body.map Command.name) = 1)
    (hrest : rest = [] ∨ ∃ r rs, rest = r :: rs ∧
      r.name ≠ opener.name ∧ r.name ≠ "end" ++ opener.name) :
    runCommands cfg st (opener :: (body ++ closer :: rest)) = runCommands cfg st rest := by
  have h3 : ("end" : String).length = 3 := rfl
  have hbe : ("end" ++ opener.name) ≠ opener.name := by
    intro h
    have hl := congrArg String.length h
    rw [String.length_append, h3] at hl
    omega
  rw [runCommands, if_pos hop]
  have hpp : printPart cfg st opener = .ok st := by
    unfold printPart
    rw [hpr]
    rfl
  rw [hpp]
  rw [skipBlock_through opener.name ("end" ++ opener.name) hbe closer hcl rest hrest body 1 hbal hfin]

/-- C5 (witness): a foreach block with one inner command and its closer
is skipped entirely, and the run equals the run of the empty remainder. -/
theorem c5_skip_balanced_block_witness :
    runCommands cfgQuiet stInit
        ((⟨"foreach", []⟩ : Command) :: ([⟨"x", []⟩] ++ (⟨"endforeach", []⟩ : Command) :: [])) =
      runCommands cfgQuiet stInit [] :=
  c5_skip_balanced_block cfgQuiet stInit ⟨"foreach", []⟩ ⟨"endforeach", []⟩ [⟨"x", []⟩] []
    (by decide) rfl rfl (by decide) (by decide) (Or.inl rfl)

/-- C5 (counterexample): on the command list if, endif, endif, if,
set(X 1), endif, the skip loop started by the first if consumes the
balanced closer AND the stray endif AND the second if (each matches a
delimiter name), then stops, so the set inside the second block is
evaluated (X becomes 1).  Had dispatch resumed at the command following
the balanced closer, as the claim states, the second block would have
been skipped and X would stay unset, as the run of that remainder
shows. -/
theorem c5_counterexample :
    ((runCommands cfgQuiet stInit c5Full).map fun s => s.vars.get "X") = .ok "1" ∧
    ((runCommands cfgQuiet stInit c5Rest).map fun s => s.vars.get "X") = .ok "" := by
  constructor <;>
    simp +decide [c5Full, c5Rest, c5SetX, runCommands, cfgQuiet, stInit, skipBlock,
      skipSteps, countStep, isBlockOpener, printPart, dispatchOther, preAddState,
      addPart, setVariable, unsetVariable, ofEval, evalArgumentList, evalArgument,
      evalUnquotedArgument, evalUnquotedElements, evalUnquotedElement, String.join,
      Mapping.iface, Mapping.new, Mapping.set, Mapping.get, Mapping.setParent,
      Frame.store, Frame.empty, empty_append_str, Except.map, pure, Except.pure,
      bind, Except.bind, EvalState.setCache, String.intercalate]

/-- C8: for a non-block-opener command whose name satisfies the recurse
predicate, once the print/set/unset prefix has run, the dispatcher
evaluates the arguments and returns the fatal arity error — aborting the
run of the whole command list — exactly when the evaluated list does not
consist of one string; the outcome is identical for every exclude-path
predicate (which is consulted only after the check) and on the error path
no recursion event is ever produced, while with exactly one argument the
dispatch of the command succeeds. -/
theorem c8_recurse_arity (cfg : EvalConfig) (st st1 : EvalState) (c : Command)
    (args : List String) (rest : List Command)
    (hopener : isBlockOpener c.name = false)
    (hadd : cfg.shouldAdd c.name = true)
    (hpre : preAddState cfg st c = .ok st1)
    (hargs : evalArgumentList st1.vars.iface c.args = some args) :
    (args.length ≠ 1 →
      ∀ q : String → Bool,
        runCommands { cfg with excludePath := q } st (c :: rest) =
          .error "invalid number of arguments to directory command") ∧
    (args.length = 1 →
      ∀ q : String → Bool, ∃ st2,
        dispatchOther { cfg with excludePath := q } st c = .ok st2) := by
  have hpre' : ∀ q : String → Bool,
      preAddState { cfg with excludePath := q } st c = .ok st1 := fun _ => hpre
  have hadd' : ∀ q : String → Bool,
      ({ cfg with excludePath := q } : EvalConfig).shouldAdd c.name = true := fun _ => hadd
  constructor
  · intro hlen q
    have hdisp : dispatchOther { cfg with excludePath := q } st c =
        .error "invalid number of arguments to directory command" := by
      unfold dispatchOther
      rw [hpre' q]
      show addPart _ st1 c = _
      unfold addPart
      rw [hadd' q]
      simp only [if_pos rfl, hargs, ofEval, Except.bind, bind]
      simp [hlen]
    rw [runCommands, hopener]
    simp only [Bool.false_eq_true, if_false, hdisp]
  · intro hlen q
    unfold dispatchOther
    rw [hpre' q]
    show ∃ st2, addPart _ st1 c = .ok st2
    unfold addPart
    rw [hadd' q]
    simp only [if_pos rfl, hargs, ofEval, Except.bind, bind]
    cases hq : q (args.head?.getD "") <;> simp [hlen, hq, pure, Except.pure]

/-- C8 (witness): an add_subdirectory command whose arguments evaluate to
two strings makes the whole run fail with the arity error. -/
theorem c8_recurse_arity_witness :
    runCommands { cfgAdd with excludePath := fun _ => false } stInit [c8TwoArgs] =
      .error "invalid number of arguments to directory command" :=
  (c8_recurse_arity cfgAdd stInit stInit c8TwoArgs ["a", "b"] []
    (by decide) (by decide) rfl rfl).1 (by decide) (fun _ => false)

/-- Characterization of the Rules.Match loop: starting from a best match
of length k, the fold returns the carried pair unless some rule's
effective length strictly exceeds k, in which case it returns the action
of the earliest rule attaining the table's maximal effective length
together with that prefix of the data. -/
theorem rulesMatchAux_characterize (rs : RuleSet α) (curr : Nat) (data : List Char)
    (hne : data ≠ []) :
    ∀ (T : List (LexRule α)) (a0 : Option α) (k : Nat), k ≤ data.length →
      (∀ r ∈ T, ruleEffLen rs curr data r ≤ data.length) →
      rulesMatchAux rs curr data T (a0, data.take k) =
        if bestLen rs curr data T ≤ k then (a0, data.take k)
        else (firstBestAct rs curr data T (bestLen rs curr data T),
              data.take (bestLen rs curr data T)) := by
  intro T
  induction T with
  | nil =>
    intro a0 k hk _
    simp [rulesMatchAux, bestLen]
  | cons r t ih =>
    intro a0 k hk hwf
    have hrk : ruleEffLen rs curr data r ≤ data.length := hwf r (by simp)
    have hwf' : ∀ x ∈ t, ruleEffLen rs curr data x ≤ data.length :=
      fun x hx => hwf x (by simp [hx])
    have htl : (data.take k).length = k := by
      simp [List.length_take, Nat.min_eq_left hk]
    -- a helper closing the goal when rule r contributes length zero
    have hskip : ruleEffLen rs curr data r = 0 →
        rulesMatchAux rs curr data t (a0, data.take k) =
          if bestLen rs curr data (r :: t) ≤ k then (a0, data.take k)
          else (firstBestAct rs curr data (r :: t) (bestLen rs curr data (r :: t)),
                data.take (bestLen rs curr data (r :: t))) := by
      intro heff
      have hbeq : bestLen rs curr data (r :: t) = bestLen rs curr data t := by
        simp [bestLen, heff]
      rw [hbeq, ih a0 k hk hwf']
      by_cases hb : bestLen rs curr data t ≤ k
      · rw [if_pos hb, if_pos hb]
      · rw [if_neg hb, if_neg hb]
        have hbpos : 0 < bestLen rs curr data t := by omega
        have hfba : firstBestAct rs curr data (r :: t) (bestLen rs curr data t) =
            firstBestAct rs curr data t (bestLen rs curr data t) := by
          unfold firstBestAct
          rw [List.find?_cons]
          have : (ruleEffLen rs curr data r == bestLen rs curr data t) = false := by
            rw [heff]
            exact beq_eq_false_iff_ne.mpr (by omega)
          rw [this]
        rw [hfba]
    rw [rulesMatchAux]
    by_cases hcond : matchCondition rs curr r.conds = true
    · rw [if_pos hcond]
      cases hpat : r.pat with
      | eofPat =>
        dsimp only
        have hie : data.isEmpty = false := by
          cases data with
          | nil => exact absurd rfl hne
          | cons a l => rfl
        rw [hie]
        simp only [Bool.false_eq_true, if_false]
        exact hskip (by simp [ruleEffLen, hcond, hpat])
      | rePat m =>
        dsimp only
        cases hm : m data with
        | none =>
          dsimp only
          exact hskip (by simp [ruleEffLen, hcond, hpat, hm])
        | some len =>
          dsimp only
          have heff : ruleEffLen rs curr data r = len := by
            simp [ruleEffLen, hcond, hpat, hm]
          by_cases hkl : (data.take k).length < len
          · rw [if_pos hkl]
            rw [htl] at hkl
            have hlen : len ≤ data.length := heff ▸ hrk
            rw [ih (some r.act) len hlen hwf']
            have hbeq : bestLen rs curr data (r :: t) =
                max len (bestLen rs curr data t) := by simp [bestLen, heff]
            rw [hbeq]
            by_cases hb : bestLen rs curr data t ≤ len
            · rw [if_pos hb]
              have hmax : max len (bestLen rs curr data t) = len := Nat.max_eq_left hb
              rw [hmax, if_neg (by omega)]
              have : firstBestAct rs curr data (r :: t) len = some r.act := by
                unfold firstBestAct
                rw [List.find?_cons]
                have : (ruleEffLen rs curr data r == len) = true := by
                  rw [heff]; simp
                rw [this]
                rfl
              rw [this]
            · rw [if_neg hb]
              have hmax : max len (bestLen rs curr data t) = bestLen rs curr data t :=
                Nat.max_eq_right (by omega)
              rw [hmax, if_neg (by omega)]
              have : firstBestAct rs curr data (r :: t) (bestLen rs curr data t) =
                  firstBestAct rs curr data t (bestLen rs curr data t) := by
                unfold firstBestAct
                rw [List.find?_cons]
                have : (ruleEffLen rs curr data r == bestLen rs curr data t) = false := by
                  rw [heff]; exact beq_eq_false_iff_ne.mpr (by omega)
                rw [this]
              rw [this]
          · rw [if_neg hkl]
            rw [htl] at hkl
            rw [ih a0 k hk hwf']
            have hbeq : bestLen rs curr data (r :: t) =
                max len (bestLen rs curr data t) := by simp [bestLen, heff]
            rw [hbeq]
            by_cases hb : bestLen rs curr data t ≤ k
            · have hmax : max len (bestLen rs curr data t) ≤ k := by omega
              rw [if_pos hb, if_pos hmax]
            · have hmax : max len (bestLen rs curr data t) = bestLen rs curr data t :=
                Nat.max_eq_right (by omega)
              rw [if_neg hb, hmax, if_neg hb]
              have : firstBestAct rs curr data (r :: t) (bestLen rs curr data t) =
                  firstBestAct rs curr data t (bestLen rs curr data t) := by
                unfold firstBestAct
                rw [List.find?_cons]
                have : (ruleEffLen rs curr data r == bestLen rs curr data t) = false := by
                  rw [heff]; exact beq_eq_false_iff_ne.mpr (by omega)
                rw [this]
              rw [this]
    · rw [if_neg hcond]
      exact hskip (by simp [ruleEffLen, hcond])

/-- C4: on any non-empty input, among the applicable rules of the current
start condition, Rules.Match selects the rule whose pattern produces the
strictly longest anchored match, irrespective of declaration order, and
on equal lengths the earliest-registered rule; the returned text is that
longest matched prefix.  (Hypotheses: some applicable rule matches a
non-empty prefix, and no matcher claims more than the data's length, as
is true of every compiled regular expression.) -/
theorem c4_longest_match_first (rs : RuleSet α) (curr : Nat) (data : List Char)
    (hne : data ≠ [])
    (hwf : ∀ r ∈ rs.table, ruleEffLen rs curr data r ≤ data.length)
    (hpos : 0 < bestLen rs curr data rs.table) :
    rulesMatch rs curr data =
      (firstBestAct rs curr data rs.table (bestLen rs curr data rs.table),
       data.take (bestLen rs curr data rs.table)) := by
  unfold rulesMatch
  have h := rulesMatchAux_characterize rs curr data hne rs.table none 0 (Nat.zero_le _) hwf
  rw [List.take_zero] at h
  rw [h, if_neg (by omega)]

/-- C4 (witness): on a concrete three-rule table over the input ab, the
length-two rules beat the earlier length-one rule, and of the two tied
length-two rules the earlier one (action 20) wins. -/
theorem c4_longest_match_first_witness :
    rulesMatch rsW 0 ['a', 'b'] = (some 20, ['a', 'b']) := by
  rw [c4_longest_match_first rsW 0 ['a', 'b'] (by decide)
    (by
      intro r hr
      simp only [rsW, List.mem_cons, List.not_mem_nil, or_false] at hr
      rcases hr with rfl | rfl | rfl <;> decide)
    (by decide)]
  decide

/-- One Rules.Match step: an inapplicable rule is skipped. -/
theorem aux_cons_skipcond {α : Type} {rs : RuleSet α} {curr : Nat} {data : List Char}
    {conds : List Nat} {p : RulePattern} {act : α} {t : List (LexRule α)}
    {f : Option α × List Char}
    (hc : matchCondition rs curr conds = false) :
    rulesMatchAux rs curr data (⟨conds, p, act⟩ :: t) f = rulesMatchAux rs curr data t f := by
  simp [rulesMatchAux, hc]

/-- One Rules.Match step: an applicable rule with no anchored match is
skipped. -/
theorem aux_cons_none {α : Type} {rs : RuleSet α} {curr : Nat} {data : List Char}
    {conds : List Nat} {m : List Char → Option Nat} {act : α} {t : List (LexRule α)}
    {f : Option α × List Char}
    (hc : matchCondition rs curr conds = true) (hm : m data = none) :
    rulesMatchAux rs curr data (⟨conds, .rePat m, act⟩ :: t) f =
      rulesMatchAux rs curr data t f := by
  simp [rulesMatchAux, hc, hm]

/-- One Rules.Match step: an applicable EOF rule is skipped on non-empty
data. -/
theorem aux_cons_eof_skip {α : Type} {rs : RuleSet α} {curr : Nat} {data : List Char}
    {conds : List Nat} {act : α} {t : List (LexRule α)} {f : Option α × List Char}
    (hc : matchCondition rs curr conds = true) (hne : data.isEmpty = false) :
    rulesMatchAux rs curr data (⟨conds, .eofPat, act⟩ :: t) f =
      rulesMatchAux rs curr data t f := by
  simp [rulesMatchAux, hc, hne]

/-- One Rules.Match step: an applicable rule with a strictly longer match
replaces the best match found so far. -/
theorem aux_cons_update {α : Type} {rs : RuleSet α} {curr : Nat} {data : List Char}
    {conds : List Nat} {m : List Char → Option Nat} {act : α} {t : List (LexRule α)}
    {f : Option α × List Char} {len : Nat}
    (hc : matchCondition rs curr conds = true) (hm : m data = some len)
    (hlt : f.2.length < len) :
    rulesMatchAux rs curr data (⟨conds, .rePat m, act⟩ :: t) f =
      rulesMatchAux rs curr data t (some act, data.take len) := by
  simp [rulesMatchAux, hc, hm, hlt]

/-- One Rules.Match step: an applicable rule without a strictly longer
match leaves the best match unchanged. -/
theorem aux_cons_keep {α : Type} {rs : RuleSet α} {curr : Nat} {data : List Char}
    {conds : List Nat} {m : List Char → Option Nat} {act : α} {t : List (LexRule α)}
    {f : Option α × List Char} {len : Nat}
    (hc : matchCondition rs curr conds = true) (hm : m data = some len)
    (hge : ¬ f.2.length < len) :
    rulesMatchAux rs curr data (⟨conds, .rePat m, act⟩ :: t) f =
      rulesMatchAux rs curr data t f := by
  simp [rulesMatchAux, hc, hm, hge]

/-- The Rules.Match fold over an exhausted table returns the best match
found. -/
theorem aux_nil {α : Type} {rs : RuleSet α} {curr : Nat} {data : List Char}
    {f : Option α × List Char} :
    rulesMatchAux rs curr data [] f = f := rfl

/-- Length of the run of characters equal to c leading a replicate of c
followed by a different character. -/
theorem spanLen_replicate_cons (p : Char → Bool) (n : Nat) (c : Char) (hc : p c = true)
    (d : Char) (hd : p d = false) (l : List Char) :
    spanLen p (List.replicate n c ++ d :: l) = n := by
  induction n with
  | zero => simp [spanLen, List.takeWhile_cons, hd]
  | succ m ih =>
    rw [List.replicate_succ, List.cons_append]
    unfold spanLen at *
    rw [List.takeWhile_cons, hc]
    simp [ih]

/-- Splitting takeWhile at an append whose right part starts with a
failing character. -/
theorem takeWhile_append_stop (p : Char → Bool) (B : List Char)
    (hB : ∀ b l, B = b :: l → p b = false) :
    ∀ A : List Char, (A ++ B).takeWhile p = A.takeWhile p := by
  intro A
  induction A with
  | nil =>
    cases hBc : B with
    | nil => simp
    | cons b l => simp [List.takeWhile_cons, hB b l hBc]
  | cons a A' ih =>
    rw [List.cons_append, List.takeWhile_cons, List.takeWhile_cons]
    cases hpa : p a <;> simp [ih]

/-- Splitting dropWhile at an append whose right part starts with a
failing character. -/
theorem dropWhile_append_stop (p : Char → Bool) (B : List Char)
    (hB : ∀ b l, B = b :: l → p b = false) :
    ∀ A : List Char, (A ++ B).dropWhile p = A.dropWhile p ++ B := by
  intro A
  induction A with
  | nil =>
    cases hBc : B with
    | nil => simp
    | cons b l => simp [List.dropWhile_cons, hB b l hBc]
  | cons a A' ih =>
    rw [List.cons_append, List.dropWhile_cons, List.dropWhile_cons]
    cases hpa : p a <;> simp [ih]

/-- The bracket-open matcher on an opening delimiter followed by a
newline matches the whole delimiter including that newline. -/
theorem mBracketOpen_core (n : Nat) (rest : List Char) :
    mBracketOpen ('[' :: (List.replicate n '=' ++ '[' :: '\n' :: rest)) = some (n + 3) := by
  have hspan : spanLen (· = '=') (List.replicate n '=' ++ '[' :: '\n' :: rest) = n :=
    spanLen_replicate_cons _ n '=' rfl '[' (by decide) _
  have hdrop : (List.replicate n '=' ++ '[' :: '\n' :: rest).drop n = '[' :: '\n' :: rest := by
    have := List.drop_left (List.replicate n '=') ('[' :: '\n' :: rest)
    rwa [List.length_replicate] at this
  unfold mBracketOpen mBracketOpenCore
  simp [hspan, hdrop]
  omega

/-- A single unquoted element never starts at an opening bracket. -/
theorem matchUnquotedElem_lbracket (l : List Char) :
    matchUnquotedElem ('[' :: l) = none := rfl

/-- The plain unquoted matcher fails on a bracket delimiter (the second
opening bracket is not an unquoted character). -/
theorem mUnquoted_core (n : Nat) (l : List Char) :
    mUnquoted ('[' :: (List.replicate n '=' ++ '[' :: l)) = none := by
  have hspan : spanLen (· = '=') (List.replicate n '=' ++ '[' :: l) = n :=
    spanLen_replicate_cons _ n '=' rfl '[' (by decide) _
  have hdrop : (List.replicate n '=' ++ '[' :: l).drop n = '[' :: l := by
    have := List.drop_left (List.replicate n '=') ('[' :: l)
    rwa [List.length_replicate] at this
  unfold mUnquoted firstUnquotedElem
  simp [matchUnquotedElem_lbracket, hspan, hdrop]

/-- The legacy unquoted matcher fails on a bracket delimiter likewise. -/
theorem mUnquotedLegacy_core (n : Nat) (l : List Char) :
    mUnquotedLegacy ('[' :: (List.replicate n '=' ++ '[' :: l)) = none := by
  have hspan : spanLen (· = '=') (List.replicate n '=' ++ '[' :: l) = n :=
    spanLen_replicate_cons _ n '=' rfl '[' (by decide) _
  have hdrop : (List.replicate n '=' ++ '[' :: l).drop n = '[' :: l := by
    have := List.drop_left (List.replicate n '=') ('[' :: l)
    rwa [List.length_replicate] at this
  have hL : legacyElemL ('[' :: l) = none := rfl
  unfold mUnquotedLegacy firstLegacyElem
  simp [matchUnquotedElem_lbracket, hspan, hdrop, hL, mMakeVar]

set_option maxHeartbeats 1600000 in
/-- In the initial condition, a bracket delimiter with trailing newline
selects the bracket-open rule, whose match swallows the newline. -/
theorem rulesMatch_initial_bracket (n : Nat) (rest : List Char) :
    rulesMatch fileRules 0 ('[' :: (List.replicate n '=' ++ '[' :: '\n' :: rest)) =
      (some .bracketOpenAct, '[' :: (List.replicate n '=' ++ ['[', '\n'])) := by
  have hform : '[' :: (List.replicate n '=' ++ '[' :: '\n' :: rest) =
      (('[' :: List.replicate n '=') ++ ['[', '\n']) ++ rest := by simp
  have htake : ('[' :: (List.replicate n '=' ++ '[' :: '\n' :: rest)).take (n + 3) =
      '[' :: (List.replicate n '=' ++ ['[', '\n']) := by
    rw [hform, @List.take_left' _ _ rest (n + 3) (by simp [List.length_replicate])]
    simp
  have hlen3 : ('[' :: (List.replicate n '=' ++ ['[', '\n'])).length = n + 3 := by
    simp [List.length_replicate]
  have v52 : mNewline ('[' :: (List.replicate n '=' ++ '[' :: '\n' :: rest)) = none := rfl
  have v53 : mBracketOpen ('[' :: (List.replicate n '=' ++ '[' :: '\n' :: rest)) =
      some (n + 3) := mBracketOpen_core n rest
  have v54 : mHash ('[' :: (List.replicate n '=' ++ '[' :: '\n' :: rest)) = none := rfl
  have v56 : mParen ('[' :: (List.replicate n '=' ++ '[' :: '\n' :: rest)) = none := rfl
  have v57 : mIdent ('[' :: (List.replicate n '=' ++ '[' :: '\n' :: rest)) = none := rfl
  have v64 : mUnquoted ('[' :: (List.replicate n '=' ++ '[' :: '\n' :: rest)) = none :=
    mUnquoted_core n ('\n' :: rest)
  have v65 : mUnquotedLegacy ('[' :: (List.replicate n '=' ++ '[' :: '\n' :: rest)) = none :=
    mUnquotedLegacy_core n ('\n' :: rest)
  have v66 : mLeftBracket ('[' :: (List.replicate n '=' ++ '[' :: '\n' :: rest)) =
      some 1 := rfl
  have v67 : mQuote ('[' :: (List.replicate n '=' ++ '[' :: '\n' :: rest)) = none := rfl
  have v74 : mSpace ('[' :: (List.replicate n '=' ++ '[' :: '\n' :: rest)) = none := rfl
  have v75 : mAnyChar ('[' :: (List.replicate n '=' ++ '[' :: '\n' :: rest)) =
      some 1 := rfl
  have hemp : ('[' :: (List.replicate n '=' ++ '[' :: '\n' :: rest)).isEmpty = false := rfl
  have mcA : matchCondition fileRules 0 [0, 1] = true := rfl
  have mcB : matchCondition fileRules 0 [] = true := rfl
  have mcC : matchCondition fileRules 0 [1] = false := rfl
  have mcD : matchCondition fileRules 0 [2] = false := rfl
  have mcE : matchCondition fileRules 0 [3] = false := rfl
  have mcF : matchCondition fileRules 0 [2, 3] = false := rfl
  have mcG : matchCondition fileRules 0 [4] = false := rfl
  have g1 : (((none : Option FileAct), ([] : List Char))).2.length < n + 3 := by
    simp
  have hlent : (('[' :: (List.replicate n '=' ++ '[' :: '\n' :: rest)).take (n + 3)).length
      = n + 3 := by rw [htake]; exact hlen3
  have g2 : ¬ (((some FileAct.bracketOpenAct),
      ('[' :: (List.replicate n '=' ++ '[' :: '\n' :: rest)).take (n + 3))).2.length < 1 := by
    simp only [hlent]
    omega
  unfold rulesMatch
  rw [show fileRules.table = fileTableList from rfl]
  unfold fileTableList
  rw [aux_cons_none mcA v52, aux_cons_update mcB v53 g1, aux_cons_none mcB v54,
    aux_cons_skipcond mcC, aux_cons_none mcB v56, aux_cons_none mcB v57,
    aux_cons_skipcond mcD, aux_cons_skipcond mcE, aux_cons_skipcond mcD,
    aux_cons_skipcond mcF, aux_cons_skipcond mcF, aux_cons_skipcond mcF,
    aux_cons_none mcB v64, aux_cons_none mcB v65, aux_cons_keep mcB v66 g2,
    aux_cons_none mcB v67, aux_cons_skipcond mcG, aux_cons_skipcond mcG,
    aux_cons_skipcond mcG, aux_cons_skipcond mcG, aux_cons_skipcond mcG,
    aux_cons_skipcond mcG, aux_cons_none mcB v74, aux_cons_keep mcB v75 g2,
    aux_cons_eof_skip mcB hemp, aux_nil, htake]

/-- Span of a list whose head satisfies the predicate. -/
theorem spanLen_cons_true {p : Char → Bool} {c : Char} (hc : p c = true) (l : List Char) :
    spanLen p (c :: l) = spanLen p l + 1 := by
  simp [spanLen, List.takeWhile_cons, hc]

/-- Span of a list whose head fails the predicate. -/
theorem spanLen_cons_false {p : Char → Bool} {c : Char} (hc : p c = false) (l : List Char) :
    spanLen p (c :: l) = 0 := by
  simp [spanLen, List.takeWhile_cons, hc]

/-- Taking the span-length prefix is the takeWhile prefix. -/
theorem take_spanLen (p : Char → Bool) (l : List Char) :
    l.take (spanLen p l) = l.takeWhile p := by
  induction l with
  | nil => rfl
  | cons c t ih =>
    cases hc : p c with
    | false => simp [spanLen_cons_false hc, List.takeWhile_cons, hc]
    | true =>
      rw [spanLen_cons_true hc, List.take_succ_cons, List.takeWhile_cons, hc, ih]
      simp

/-- The bracket-tail matcher fails unless the head is a closing
bracket. -/
theorem mBracketTail_ne {c : Char} (hc : ¬ c = ']') (l : List Char) :
    mBracketTail (c :: l) = none := by
  show (if c = ']' then some (1 + spanLen (· = '=') l) else none) = none
  rw [if_neg hc]

/-- The newline matcher fails on any other head. -/
theorem mNewline_ne {c : Char} (hc : ¬ c = '\n') (l : List Char) :
    mNewline (c :: l) = none := by
  show (if c = '\n' then some 1 else none) = none
  rw [if_neg hc]

/-- In the bracket condition, a closing bracket with its equals run
selects the bracket-tail rule with the whole run as the match. -/
theorem rulesMatch_bracket_tail (n : Nat) :
    rulesMatch fileRules 2 (']' :: (List.replicate n '=' ++ [']'])) =
      (some .bracketTailAct, ']' :: List.replicate n '=') := by
  have mc2A : matchCondition fileRules 2 [0, 1] = false := rfl
  have mc2B : matchCondition fileRules 2 [] = false := rfl
  have mc2C : matchCondition fileRules 2 [1] = false := rfl
  have mc2D : matchCondition fileRules 2 [2] = true := rfl
  have mc2E : matchCondition fileRules 2 [3] = false := rfl
  have mc2F : matchCondition fileRules 2 [2, 3] = true := rfl
  have mc2G : matchCondition fileRules 2 [4] = false := rfl
  have v58 : mBracketTail (']' :: (List.replicate n '=' ++ [']'])) = some (1 + n) := by
    show (if (']' : Char) = ']' then
        some (1 + spanLen (· = '=') (List.replicate n '=' ++ [']'])) else none) = some (1 + n)
    rw [if_pos rfl,
      show List.replicate n '=' ++ [']'] = List.replicate n '=' ++ ']' :: [] from rfl,
      spanLen_replicate_cons _ n '=' rfl ']' (by decide) []]
  have v60 : mBracketContent (']' :: (List.replicate n '=' ++ [']'])) = none := by
    show (let k := spanLen isBracketContentChar (']' :: (List.replicate n '=' ++ [']']));
      if k = 0 then none else some k) = none
    rw [spanLen_cons_false (by decide)]
    rfl
  have v61 : mNewline (']' :: (List.replicate n '=' ++ [']'])) = none :=
    mNewline_ne (by decide) _
  have v62 : mNotNulNlChar (']' :: (List.replicate n '=' ++ [']'])) = some 1 := rfl
  have hemp : (']' :: (List.replicate n '=' ++ [']'])).isEmpty = false := rfl
  have hform : ']' :: (List.replicate n '=' ++ [']']) =
      (']' :: List.replicate n '=') ++ [']'] := by simp
  have htake : (']' :: (List.replicate n '=' ++ [']'])).take (1 + n) =
      ']' :: List.replicate n '=' := by
    rw [hform, List.take_left' (by simp [List.length_replicate] <;> omega)]
  have g1 : (((none : Option FileAct), ([] : List Char))).2.length < 1 + n := by
    simp
  have g2 : ¬ (((some FileAct.bracketTailAct),
      (']' :: (List.replicate n '=' ++ [']'])).take (1 + n))).2.length < 1 := by
    rw [htake]
    simp
  unfold rulesMatch
  rw [show fileRules.table = fileTableList from rfl]
  unfold fileTableList
  rw [aux_cons_skipcond mc2A, aux_cons_skipcond mc2B, aux_cons_skipcond mc2B,
    aux_cons_skipcond mc2C, aux_cons_skipcond mc2B, aux_cons_skipcond mc2B,
    aux_cons_update mc2D v58 g1, aux_cons_skipcond mc2E, aux_cons_none mc2D v60,
    aux_cons_none mc2F v61, aux_cons_keep mc2F v62 g2, aux_cons_eof_skip mc2F hemp,
    aux_cons_skipcond mc2B, aux_cons_skipcond mc2B, aux_cons_skipcond mc2B,
    aux_cons_skipcond mc2B, aux_cons_skipcond mc2G, aux_cons_skipcond mc2G,
    aux_cons_skipcond mc2G, aux_cons_skipcond mc2G, aux_cons_skipcond mc2G,
    aux_cons_skipcond mc2G, aux_cons_skipcond mc2B, aux_cons_skipcond mc2B,
    aux_cons_skipcond mc2B, aux_nil, htake]

/-- In the bracket-end condition, a lone closing bracket selects the
bracket-close rule. -/
theorem rulesMatch_bracket_close :
    rulesMatch fileRules 3 [']'] = (some .bracketCloseAct, [']']) := by
  decide

/-- In the bracket condition, a content character starts a content run
matched by the bracket-content rule. -/
theorem rulesMatch_bracket_content (c : Char) (l : List Char)
    (hc : isBracketContentChar c = true) :
    rulesMatch fileRules 2 (c :: l) =
      (some .bracketContentAct, (c :: l).takeWhile isBracketContentChar) := by
  have hcr : ¬ c = ']' := by
    intro h
    rw [h] at hc
    exact absurd hc (by decide)
  have hcn : ¬ c = '\n' := by
    intro h
    rw [h] at hc
    exact absurd hc (by decide)
  have hnn : notNulNl c = true := by
    simp [isBracketContentChar] at hc
    exact hc.2
  have mc2A : matchCondition fileRules 2 [0, 1] = false := rfl
  have mc2B : matchCondition fileRules 2 [] = false := rfl
  have mc2C : matchCondition fileRules 2 [1] = false := rfl
  have mc2D : matchCondition fileRules 2 [2] = true := rfl
  have mc2E : matchCondition fileRules 2 [3] = false := rfl
  have mc2F : matchCondition fileRules 2 [2, 3] = true := rfl
  have mc2G : matchCondition fileRules 2 [4] = false := rfl
  have hspan : spanLen isBracketContentChar (c :: l) =
      spanLen isBracketContentChar l + 1 := spanLen_cons_true hc l
  have v58 : mBracketTail (c :: l) = none := mBracketTail_ne hcr l
  have v60 : mBracketContent (c :: l) = some (spanLen isBracketContentChar l + 1) := by
    show (let k := spanLen isBracketContentChar (c :: l);
      if k = 0 then none else some k) = some (spanLen isBracketContentChar l + 1)
    rw [hspan]
    simp
  have v61 : mNewline (c :: l) = none := mNewline_ne hcn l
  have v62 : mNotNulNlChar (c :: l) = some 1 := by
    show (if notNulNl c then some 1 else none) = some 1
    rw [hnn]
    rfl
  have hemp : (c :: l).isEmpty = false := rfl
  have htake : (c :: l).take (spanLen isBracketContentChar l + 1) =
      (c :: l).takeWhile isBracketContentChar := by
    rw [← hspan, take_spanLen]
  have g1 : (((none : Option FileAct), ([] : List Char))).2.length <
      spanLen isBracketContentChar l + 1 := by simp
  have g2 : ¬ (((some FileAct.bracketContentAct),
      (c :: l).take (spanLen isBracketContentChar l + 1))).2.length < 1 := by
    rw [htake]
    simp [List.takeWhile_cons, hc]
  unfold rulesMatch
  rw [show fileRules.table = fileTableList from rfl]
  unfold fileTableList
  rw [aux_cons_skipcond mc2A, aux_cons_skipcond mc2B, aux_cons_skipcond mc2B,
    aux_cons_skipcond mc2C, aux_cons_skipcond mc2B, aux_cons_skipcond mc2B,
    aux_cons_none mc2D v58, aux_cons_skipcond mc2E, aux_cons_update mc2D v60 g1,
    aux_cons_none mc2F v61, aux_cons_keep mc2F v62 g2, aux_cons_eof_skip mc2F hemp,
    aux_cons_skipcond mc2B, aux_cons_skipcond mc2B, aux_cons_skipcond mc2B,
    aux_cons_skipcond mc2B, aux_cons_skipcond mc2G, aux_cons_skipcond mc2G,
    aux_cons_skipcond mc2G, aux_cons_skipcond mc2G, aux_cons_skipcond mc2G,
    aux_cons_skipcond mc2G, aux_cons_skipcond mc2B, aux_cons_skipcond mc2B,
    aux_cons_skipcond mc2B, aux_nil, htake]

/-- In the bracket condition, a newline selects the (appending) reset
rule. -/
theorem rulesMatch_bracket_newline_rule (l : List Char) :
    rulesMatch fileRules 2 ('\n' :: l) = (some .bracketResetAct, ['\n']) := by
  have mc2A : matchCondition fileRules 2 [0, 1] = false := rfl
  have mc2B : matchCondition fileRules 2 [] = false := rfl
  have mc2C : matchCondition fileRules 2 [1] = false := rfl
  have mc2D : matchCondition fileRules 2 [2] = true := rfl
  have mc2E : matchCondition fileRules 2 [3] = false := rfl
  have mc2F : matchCondition fileRules 2 [2, 3] = true := rfl
  have mc2G : matchCondition fileRules 2 [4] = false := rfl
  have v58 : mBracketTail ('\n' :: l) = none := mBracketTail_ne (by decide) l
  have v60 : mBracketContent ('\n' :: l) = none := by
    show (let k := spanLen isBracketContentChar ('\n' :: l);
      if k = 0 then none else some k) = none
    rw [spanLen_cons_false (by decide)]
    rfl
  have v61 : mNewline ('\n' :: l) = some 1 := rfl
  have v62 : mNotNulNlChar ('\n' :: l) = none := rfl
  have hemp : ('\n' :: l).isEmpty = false := rfl
  have htake : ('\n' :: l).take 1 = ['\n'] := rfl
  have g1 : (((none : Option FileAct), ([] : List Char))).2.length < 1 := by simp
  have g2 : ¬ (((some FileAct.bracketResetAct), ('\n' :: l).take 1)).2.length < 1 := by
    rw [htake]
    simp
  unfold rulesMatch
  rw [show fileRules.table = fileTableList from rfl]
  unfold fileTableList
  rw [aux_cons_skipcond mc2A, aux_cons_skipcond mc2B, aux_cons_skipcond mc2B,
    aux_cons_skipcond mc2C, aux_cons_skipcond mc2B, aux_cons_skipcond mc2B,
    aux_cons_none mc2D v58, aux_cons_skipcond mc2E, aux_cons_none mc2D v60,
    aux_cons_update mc2F v61 g1, aux_cons_none mc2F v62, aux_cons_eof_skip mc2F hemp,
    aux_cons_skipcond mc2B, aux_cons_skipcond mc2B, aux_cons_skipcond mc2B,
    aux_cons_skipcond mc2B, aux_cons_skipcond mc2G, aux_cons_skipcond mc2G,
    aux_cons_skipcond mc2G, aux_cons_skipcond mc2G, aux_cons_skipcond mc2G,
    aux_cons_skipcond mc2G, aux_cons_skipcond mc2B, aux_cons_skipcond mc2B,
    aux_cons_skipcond mc2B, aux_nil, htake]

/-- Dropping the span-length prefix is the dropWhile suffix. -/
theorem drop_spanLen (p : Char → Bool) (l : List Char) :
    l.drop (spanLen p l) = l.dropWhile p := by
  induction l with
  | nil => rfl
  | cons c t ih =>
    cases hc : p c with
    | false => simp [spanLen_cons_false hc, List.dropWhile_cons, hc]
    | true =>
      rw [spanLen_cons_true hc, List.drop_succ_cons, List.dropWhile_cons]
      simp [hc, ih]

/-- The index of the opening bracket heading the matched delimiter. -/
theorem idxOf_open (l : List Char) : idxOf ('[' :: l) '[' = 0 := by
  simp [idxOf]

/-- The index of the last opening bracket of the matched delimiter. -/
theorem lastIdxOf_open (n : Nat) :
    lastIdxOf ('[' :: (List.replicate n '=' ++ ['[', '\n'])) '[' = (n : Int) + 1 := by
  have hrev : ('[' :: (List.replicate n '=' ++ ['[', '\n'])).reverse =
      '\n' :: '[' :: (List.replicate n '=' ++ ['[']) := by
    simp
  unfold lastIdxOf
  rw [hrev]
  simp [List.length_replicate]
  push_cast
  omega

/-- One advance() iteration whose action continues scanning. -/
theorem advanceLoop_step_continue {f : Nat} {d : LexDriver} {data : List Char}
    {a : FileAct} {tok : List Char} {d2 : LexDriver}
    (hne : data ≠ [])
    (hm : rulesMatch fileRules d.cond data = (some a, tok))
    (hact : runFileAct a d tok = .ok (d2, false)) :
    advanceLoop (f + 1) d data = advanceLoop f d2 (data.drop tok.length) := by
  cases data with
  | nil => exact absurd rfl hne
  | cons x xs => simp [advanceLoop, hm, hact]

/-- One advance() iteration whose action emits the buffered tokens. -/
theorem advanceLoop_step_done {f : Nat} {d : LexDriver} {data : List Char}
    {a : FileAct} {tok : List Char} {d2 : LexDriver}
    (hne : data ≠ [])
    (hm : rulesMatch fileRules d.cond data = (some a, tok))
    (hact : runFileAct a d tok = .ok (d2, true)) :
    advanceLoop (f + 1) d data = .ok (d2, data.drop tok.length) := by
  cases data with
  | nil => exact absurd rfl hne
  | cons x xs => simp [advanceLoop, hm, hact]

/-- appendText on a single-token buffer. -/
theorem appendText_single (kind : TokKind) (v : List Char) (cond : Nat) (b : Int)
    (text : List Char) :
    LexDriver.appendText ⟨[⟨kind, v⟩], cond, b⟩ text = ⟨[⟨kind, v ++ text⟩], cond, b⟩ := rfl

/-- The bracket-tail action appends the tail text and, the full delimiter
length having been reached, transitions to the bracket-end condition. -/
theorem runFileAct_tail (n : Nat) (acc : List Char) :
    runFileAct .bracketTailAct ⟨[⟨.bracketContent, acc⟩], 2, (n : Int) + 1⟩
        (']' :: List.replicate n '=') =
      .ok (⟨[⟨.bracketContent, acc ++ (']' :: List.replicate n '=')⟩], 3, (n : Int) + 1⟩,
        false) := by
  have hlen : (((']' :: List.replicate n '=').length : Nat) : Int) = (n : Int) + 1 := by
    simp [List.length_replicate]
  unfold runFileAct
  rw [appendText_single]
  simp [hlen, LexDriver.begin]

/-- The bracket-close action trims the stored closing delimiter from the
content, returns to the initial condition and emits. -/
theorem runFileAct_close (n : Nat) (acc : List Char) :
    runFileAct .bracketCloseAct
        ⟨[⟨.bracketContent, acc ++ (']' :: List.replicate n '=')⟩], 3, (n : Int) + 1⟩ [']'] =
      .ok (⟨[⟨.bracketContent, acc⟩], 0, (n : Int) + 1⟩, true) := by
  have hlen : (acc ++ (']' :: List.replicate n '=')).length = acc.length + (n + 1) := by
    simp [List.length_replicate]
  have hbound : (0 : Int) ≤ (n : Int) + 1 ∧
      (n : Int) + 1 ≤ (((acc ++ (']' :: List.replicate n '=')).length : Nat) : Int) := by
    constructor
    · omega
    · rw [hlen]; push_cast; omega
  have htonat : ((n : Int) + 1).toNat = n + 1 := by omega
  have htrim : (acc ++ (']' :: List.replicate n '=')).take
      ((acc ++ (']' :: List.replicate n '=')).length - ((n : Int) + 1).toNat) = acc := by
    rw [htonat, hlen]
    simp [List.take_left]
  unfold runFileAct
  simp only [List.getLast?_singleton, Option.getD_some]
  rw [if_pos hbound]
  simp only [LexDriver.begin, LexDriver.updateTok, List.dropLast_single,
    List.getLast?_singleton, Option.getD_some, List.nil_append]
  rw [htrim]
  simp

/-- Scan step consuming the closing-bracket tail. -/
theorem advStep_tail (n f : Nat) (acc : List Char) :
    advanceLoop (f + 1) ⟨[⟨.bracketContent, acc⟩], 2, (n : Int) + 1⟩
        (']' :: (List.replicate n '=' ++ [']'])) =
      advanceLoop f
        ⟨[⟨.bracketContent, acc ++ (']' :: List.replicate n '=')⟩], 3, (n : Int) + 1⟩
        [']'] := by
  have hdrop : (']' :: (List.replicate n '=' ++ [']'])).drop
      ((']' :: List.replicate n '=').length) = [']'] := by
    rw [show ']' :: (List.replicate n '=' ++ [']']) =
      (']' :: List.replicate n '=') ++ [']'] by simp]
    exact List.drop_left _ _
  rw [advanceLoop_step_continue (by simp) (rulesMatch_bracket_tail n)
    (runFileAct_tail n acc), hdrop]

/-- Scan step consuming the final closing bracket and emitting the
trimmed content token. -/
theorem advStep_close (n f : Nat) (acc : List Char) :
    advanceLoop (f + 1)
        ⟨[⟨.bracketContent, acc ++ (']' :: List.replicate n '=')⟩], 3, (n : Int) + 1⟩
        [']'] =
      .ok (⟨[⟨.bracketContent, acc⟩], 0, (n : Int) + 1⟩, []) := by
  have h := advanceLoop_step_done (f := f) (by simp) rulesMatch_bracket_close
    (runFileAct_close n acc)
  simpa using h

/-- Scan step consuming a newline inside bracket content. -/
theorem advStep_newline (n f : Nat) (acc l : List Char) :
    advanceLoop (f + 1) ⟨[⟨.bracketContent, acc⟩], 2, (n : Int) + 1⟩ ('\n' :: l) =
      advanceLoop f ⟨[⟨.bracketContent, acc ++ ['\n']⟩], 2, (n : Int) + 1⟩ l := by
  have hact : runFileAct .bracketResetAct ⟨[⟨.bracketContent, acc⟩], 2, (n : Int) + 1⟩
      ['\n'] = .ok (⟨[⟨.bracketContent, acc ++ ['\n']⟩], 2, (n : Int) + 1⟩, false) := rfl
  rw [advanceLoop_step_continue (by simp) (rulesMatch_bracket_newline_rule l) hact]
  simp

/-- Scan step consuming a maximal run of bracket-content characters. -/
theorem advStep_content (n f : Nat) (acc : List Char) (c : Char) (l : List Char)
    (hc : isBracketContentChar c = true) :
    advanceLoop (f + 1) ⟨[⟨.bracketContent, acc⟩], 2, (n : Int) + 1⟩ (c :: l) =
      advanceLoop f
        ⟨[⟨.bracketContent, acc ++ (c :: l).takeWhile isBracketContentChar⟩], 2,
          (n : Int) + 1⟩
        ((c :: l).dropWhile isBracketContentChar) := by
  have hact : runFileAct .bracketContentAct ⟨[⟨.bracketContent, acc⟩], 2, (n : Int) + 1⟩
      ((c :: l).takeWhile isBracketContentChar) =
      .ok (⟨[⟨.bracketContent, acc ++ (c :: l).takeWhile isBracketContentChar⟩], 2,
        (n : Int) + 1⟩, false) := rfl
  rw [advanceLoop_step_continue (by simp) (rulesMatch_bracket_content c l hc) hact]
  rw [show ((c :: l).takeWhile isBracketContentChar).length =
    spanLen isBracketContentChar (c :: l) from rfl, drop_spanLen]

/-- The bracket-mode scan accumulates exactly the bracket content and
stops after the matching closer, leaving the initial condition. -/
theorem bracketScan (n : Nat) : ∀ (fuel : Nat) (text acc : List Char),
    (∀ c ∈ text, ¬ c = ']' ∧ ¬ c = Char.ofNat 0) →
    text.length + 2 < fuel →
    advanceLoop fuel ⟨[⟨.bracketContent, acc⟩], 2, (n : Int) + 1⟩
        (text ++ (']' :: (List.replicate n '=' ++ [']']))) =
      .ok (⟨[⟨.bracketContent, acc ++ text⟩], 0, (n : Int) + 1⟩, []) := by
  intro fuel
  induction fuel with
  | zero =>
    intro text acc hT hf
    omega
  | succ f ih =>
    intro text acc hT hf
    cases text with
    | nil =>
      simp only [List.nil_append, List.append_nil]
      obtain ⟨f1, rfl⟩ : ∃ f1, f = f1 + 1 := ⟨f - 1, by simp at hf; omega⟩
      rw [advStep_tail n (f1 + 1) acc, advStep_close n f1 acc]
    | cons c t =>
      have hc1 := hT c (by simp)
      by_cases hcn : c = '\n'
      · subst hcn
        rw [List.cons_append, advStep_newline]
        have hres := ih t (acc ++ ['\n']) (fun x hx => hT x (by simp [hx]))
          (by simp at hf ⊢; omega)
        rw [hres]
        simp
      · have hct : isBracketContentChar c = true := by
          simp [isBracketContentChar, notNulNl]
          exact ⟨hc1.1, hc1.2, hcn⟩
        rw [List.cons_append, advStep_content n f acc c
          (t ++ (']' :: (List.replicate n '=' ++ [']']))) hct]
        have hB : ∀ b l', ']' :: (List.replicate n '=' ++ [']']) = b :: l' →
            isBracketContentChar b = false := by
          intro b l' h
          cases h
          decide
        have h1 : c :: (t ++ (']' :: (List.replicate n '=' ++ [']']))) =
            (c :: t) ++ (']' :: (List.replicate n '=' ++ [']'])) := by simp
        rw [h1, takeWhile_append_stop _ _ hB (c :: t), dropWhile_append_stop _ _ hB (c :: t)]
        have hdwlen : ((c :: t).dropWhile isBracketContentChar).length ≤ t.length := by
          rw [List.dropWhile_cons]
          simp only [hct, if_true]
          exact (List.dropWhile_sublist _).length_le
        have hres := ih ((c :: t).dropWhile isBracketContentChar)
          (acc ++ (c :: t).takeWhile isBracketContentChar)
          (fun x hx => hT x ((List.dropWhile_sublist _).mem hx))
          (by simp at hf ⊢; omega)
        rw [hres]
        rw [List.append_assoc, List.takeWhile_append_dropWhile]

/-- The bracket-open action discards the matched delimiter text (so the
trailing newline never reaches the content), enters the bracket
condition and stores the delimiter length. -/
theorem runFileAct_open (n : Nat) :
    runFileAct .bracketOpenAct ⟨[(⟨.eofKind, []⟩ : LexToken)], 0, -1⟩
        ('[' :: (List.replicate n '=' ++ ['[', '\n'])) =
      .ok (⟨[⟨.bracketContent, []⟩], 2, (n : Int) + 1⟩, false) := by
  have hhd : ('[' :: (List.replicate n '=' ++ ['[', '\n'])).head? = some '[' := rfl
  unfold runFileAct
  rw [hhd]
  simp [LexDriver.setValue, LexDriver.updateTok, LexDriver.begin, lastIdxOf_open,
    idxOf_open]

/-- C10: a newline immediately following the opening bracket delimiter is
consumed as part of the delimiter and excluded from the bracket
argument's content: for every delimiter level n and every content free of
closing brackets and NUL bytes, lexing the bracket form with a leading
newline produces a bracket-content token holding exactly that content,
without the newline. -/
theorem c10_bracket_newline_excluded (n : Nat) (text : List Char)
    (hT : ∀ c ∈ text, ¬ c = ']' ∧ ¬ c = Char.ofNat 0) :
    firstToken ('[' :: (List.replicate n '=' ++ '[' :: '\n' ::
        (text ++ (']' :: (List.replicate n '=' ++ [']']))))) =
      .ok ⟨.bracketContent, text⟩ := by
  have hlen : ('[' :: (List.replicate n '=' ++ '[' :: '\n' ::
      (text ++ (']' :: (List.replicate n '=' ++ [']']))))).length =
      2 * n + 5 + text.length := by
    simp [List.length_replicate]
    omega
  have hdrop : ('[' :: (List.replicate n '=' ++ '[' :: '\n' ::
      (text ++ (']' :: (List.replicate n '=' ++ [']']))))).drop
        (('[' :: (List.replicate n '=' ++ ['[', '\n'])).length) =
      text ++ (']' :: (List.replicate n '=' ++ [']'])) := by
    rw [show '[' :: (List.replicate n '=' ++ '[' :: '\n' ::
        (text ++ (']' :: (List.replicate n '=' ++ [']'])))) =
      ('[' :: (List.replicate n '=' ++ ['[', '\n'])) ++
        (text ++ (']' :: (List.replicate n '=' ++ [']']))) by simp]
    exact List.drop_left _ _
  unfold firstToken tableAdvance
  rw [advanceLoop_step_continue (by simp)
    (rulesMatch_initial_bracket n (text ++ (']' :: (List.replicate n '=' ++ [']']))))
    (runFileAct_open n), hdrop]
  rw [bracketScan n _ text [] hT (by rw [hlen]; omega)]
  simp [Except.map]

/-- C10 (witness): at delimiter level one with content ab, newline, cd,
the produced token is exactly that content without the leading
delimiter newline. -/
theorem c10_bracket_newline_excluded_witness :
    firstToken ('[' :: (List.replicate 1 '=' ++ '[' :: '\n' ::
        (['a', 'b', '\n', 'c', 'd'] ++ (']' :: (List.replicate 1 '=' ++ [']']))))) =
      .ok ⟨.bracketContent, ['a', 'b', '\n', 'c', 'd']⟩ :=
  c10_bracket_newline_excluded 1 ['a', 'b', '\n', 'c', 'd'] (by decide)

end Bzlgen
